import Mathlib

/-!
Shallow embedding of the job-lifecycle state machine and job manager from
`src/index.ts` of the repository (the final iteration of the code: the enum
`JobStates`, the transition table `stateMachine`, the `Job` and `JobManager`
classes, and the retry helper `withExponentialBackoff`).

Modelling conventions:
* JS string enums become Lean inductives.
* A JS `Error` object is modelled by its `name` and `message` fields; the
  expression `new Error(msg)` produces an error whose `name` field is the
  string "Error" (the JS default) and whose `message` field is `msg`.
* The two `Map`s of `JobManager` (`jobs[priority]` and `jobsById`) become
  insertion-ordered lists of job ids; the job objects themselves live in a
  heap (`store`, an association list id -> Job) because a `Job` object
  outlives its removal from the two indices.
* `async` control flow is modelled sequentially: the `for`-loop over the
  three priorities runs the tiers in order (this is the `await Promise.all`
  barrier of `runJobs`), and within a tier the jobs are processed one after
  the other in map-insertion order.  Observable side effects (invocations of
  a job's callback) are recorded in a trace of job ids.
* A job callback is a function `Bool → Nat → Option Err`: it receives the
  current value of its abort signal and the number of times it has already
  been invoked during the present execution, and it either returns normally
  (`none`) or throws (`some e`).
-/

namespace StateMachineRepo

/-- The `JobStates` enum from src/index.ts. -/
inductive JobState where
  | Created
  | Processing
  | Completed
  | Cancelled
  | Failed
deriving DecidableEq, Repr

/-- The `JobActions` enum from src/index.ts. -/
inductive JobAction where
  | Start
  | Complete
  | Cancel
  | Fail
deriving DecidableEq, Repr

/-- The `Priority` enum from src/index.ts. -/
inductive Priority where
  | low
  | medium
  | high
deriving DecidableEq, Repr

/-- The transition table `stateMachine` from src/index.ts (lines 34-55).
`none` models an absent entry of the partial per-state record. -/
def stateMachine : JobState → JobAction → Option JobState
  | .Created, .Start => some .Processing
  | .Created, .Cancel => some .Cancelled
  | .Processing, .Complete => some .Completed
  | .Processing, .Cancel => some .Cancelled
  | .Processing, .Fail => some .Failed
  | .Cancelled, .Start => some .Cancelled
  | .Cancelled, .Complete => some .Cancelled
  | .Cancelled, .Cancel => some .Cancelled
  | .Cancelled, .Fail => some .Cancelled
  | _, _ => none

/-- The four actions, in declaration order (used to count the keys of a
state's row of the table, as `Object.keys(stateMachine[state]).length` does). -/
def actionsList : List JobAction := [.Start, .Complete, .Cancel, .Fail]

/-- Number of outgoing transitions of a state
(`Object.keys(stateMachine[state]).length`). -/
def outgoingCount (s : JobState) : Nat :=
  (actionsList.filter (fun a => (stateMachine s a).isSome)).length

/-- The terminal-state check of `JobManager.assertTerminalState` /
`JobManager.removeJob`: a state is accepted as terminal when its table row is
empty or the state is `Cancelled` (whose row is deliberately full). -/
def isTerminalState (s : JobState) : Bool :=
  outgoingCount s = 0 || s = .Cancelled

/-- A JS error value, reduced to the two fields the code inspects. -/
structure Err where
  name : String
  message : String
deriving DecidableEq, Repr

/-- Model of `new Error(msg)` in JS: the `name` field is the default "Error", the
argument only sets `message`.  In particular `new Error("AbortError")` does
NOT have name "AbortError". -/
def newError (msg : String) : Err :=
  { name := "Error", message := msg }

/-- Modelled from the spec: the `assert` collaborator imported from
"./libs/errors" (not under src/) converts a failed invariant check into a
fatal fault carrying the assertion message (spec section 6: an assertion sink
"converts invariant violations into fatal faults carrying a message and
structured context").  Its fault is an ordinary error object whose name is
not "AbortError". -/
def assertionFault (msg : String) : Err :=
  { name := "AssertionError", message := msg }

/-- A job callback (the `fn` field of `Job`): given the current abort-signal
value and the number of earlier invocations in this run, return `none`
(normal return) or `some e` (throw `e`). -/
abbrev Callback := Bool → Nat → Option Err

/-- The backoff delay the executor computes before the retry that follows the
`k`-th failure (0-based `k`; in the source, `attempt = k + 1` at that point):
`2 ** attempt * (baseBackoffMillis / 2)` plus `Math.random() * (baseBackoffMillis / 2)`,
with `jd k` the value of the `k`-th `Math.random()` draw. -/
def retryDelay (base : ℚ) (jd : Nat → ℚ) (k : Nat) : ℚ :=
  2 ^ (k + 1) * (base / 2) + jd k * (base / 2)

/-- The `try` block of one iteration of the `withExponentialBackoff` loop:
if the signal is aborted, throw `new Error("AbortError")` without invoking
`fn`; otherwise invoke `fn` (so the invocation counter advances) and either
return normally or propagate what `fn` threw. -/
def backoffTry (fn : Callback) (signalAborted : Bool) (inv : Nat) : Option Err × Nat :=
  if signalAborted then
    (some (newError "AbortError"), inv)
  else
    match fn signalAborted inv with
    | none => (none, inv + 1)
    | some e => (some e, inv + 1)

/-- The `while (true)` loop of `withExponentialBackoff` (src/index.ts lines
289-313).  The loop terminates because a retry only happens while
`attempt + 1 < maxFailures`; to make the recursion structural we carry
`remaining = maxFailures - attempt` as an explicit decreasing argument, so
the source's post-increment test `attempt >= maxFailures` is exactly
`remaining ≤ 1` here.  When `remaining ≤ 1` any caught error is thrown out
of the loop whether or not its name is "AbortError" (in the source the
name test merely selects between the two `throw e` sites in that case), so
those two cases return the error directly.  `inv` counts the invocations of
`fn` so far and `sleeps` records the delays passed to `waitForTime`, in
order; the `Math.random()` draw used for the `k`-th sleep is `jd k`, and
`sleeps.length = k` at that moment. -/
def backoffGo (fn : Callback) (signalAborted : Bool) (base : ℚ) (jd : Nat → ℚ) :
    Nat → Nat → Nat → List ℚ → Except Err Unit × Nat × List ℚ
  | 0, _, inv, sleeps =>
    (match backoffTry fn signalAborted inv with
     | (none, inv2) => (Except.ok (), inv2, sleeps)
     | (some e, inv2) => (Except.error e, inv2, sleeps))
  | 1, _, inv, sleeps =>
    (match backoffTry fn signalAborted inv with
     | (none, inv2) => (Except.ok (), inv2, sleeps)
     | (some e, inv2) => (Except.error e, inv2, sleeps))
  | r + 2, attempt, inv, sleeps =>
    (match backoffTry fn signalAborted inv with
     | (none, inv2) => (Except.ok (), inv2, sleeps)
     | (some e, inv2) =>
       if e.name = "AbortError" then
         (Except.error e, inv2, sleeps)
       else
         backoffGo fn signalAborted base jd (r + 1) (attempt + 1) inv2
           (sleeps ++ [2 ^ (attempt + 1) * (base / 2) + jd sleeps.length * (base / 2)]))

/-- The function `withExponentialBackoff(fn, signal, maxFailures, baseBackoffMillis)` from
src/index.ts: returns the result (normal return of `fn`, or the thrown
error), the number of times `fn` was invoked, and the list of backoff delays
slept. -/
def withExponentialBackoff (fn : Callback) (signalAborted : Bool)
    (maxFailures : Nat) (base : ℚ) (jd : Nat → ℚ) :
    Except Err Unit × Nat × List ℚ :=
  backoffGo fn signalAborted base jd maxFailures 0 0 []

/-- The `Job` class from src/index.ts, reduced to the fields the manager
reads: `id`, `name`, `fn`, `priority`, the mutable `state`, and the
`AbortController`'s one-way `aborted` flag.  `created_at` carries no
behaviour and is omitted. -/
structure Job where
  id : Nat
  name : String
  fn : Callback
  priority : Priority
  state : JobState
  aborted : Bool

/-- The `JobManager` state.  `store` is the heap of `Job` objects ever
created, keyed by id (a `Job` object outlives its removal from the two
indices); `jobsHigh`/`jobsMedium`/`jobsLow` are the id sets of the three
priority `Map`s of `JobManager.jobs` and `jobsById` is the id set of the
flat `JobManager.jobsById` map, all in insertion order; `nextId` models the
`uuid()` generator (each new job receives a fresh id). -/
structure Manager where
  store : List (Nat × Job)
  jobsHigh : List Nat
  jobsMedium : List Nat
  jobsLow : List Nat
  jobsById : List Nat
  nextId : Nat

/-- The id list of the priority map `jobs[p]`. -/
def Manager.tier (m : Manager) : Priority → List Nat
  | .high => m.jobsHigh
  | .medium => m.jobsMedium
  | .low => m.jobsLow

/-- Replace the id list of the priority map `jobs[p]`. -/
def setTier (m : Manager) (p : Priority) (l : List Nat) : Manager :=
  match p with
  | .high => { m with jobsHigh := l }
  | .medium => { m with jobsMedium := l }
  | .low => { m with jobsLow := l }

/-- Association-list lookup in the job heap. -/
def lookupStore (id : Nat) : List (Nat × Job) → Option Job
  | [] => none
  | (k, j) :: rest => if k = id then some j else lookupStore id rest

/-- Overwrite the job object stored under `id` (mutation of a `Job` object:
every holder of the id sees the new value). -/
def updateStore (id : Nat) (j : Job) : List (Nat × Job) → List (Nat × Job)
  | [] => []
  | (k, o) :: rest =>
    if k = id then (k, j) :: updateStore id j rest
    else (k, o) :: updateStore id j rest

/-- Fetch the job object with the given id (dereference a held object). -/
def getStored (m : Manager) (id : Nat) : Option Job :=
  lookupStore id m.store

/-- Model of `this.jobsById.get(jobId)`: only ids present in the flat index resolve. -/
def getById (m : Manager) (id : Nat) : Option Job :=
  if id ∈ m.jobsById then getStored m id else none

/-- Write back a mutated job object. -/
def setJob (m : Manager) (j : Job) : Manager :=
  { m with store := updateStore j.id j m.store }

/-- A freshly constructed `JobManager`. -/
def emptyManager : Manager :=
  { store := [], jobsHigh := [], jobsMedium := [], jobsLow := [],
    jobsById := [], nextId := 0 }

/-- The method `JobManager.transitionState` (src/index.ts lines 164-180) acting on a
job object: look up `stateMachine[job.getState()][action]`; assert the entry
exists ("Invalid state transition"); set the new state. -/
def transitionStateJob (j : Job) (a : JobAction) : Except Err Job :=
  match stateMachine j.state a with
  | none => .error (assertionFault "Invalid state transition")
  | some next => .ok { j with state := next }

/-- The method `JobManager.assertJobRemoved` (src/index.ts lines 143-155): assert the
job is in neither index (`jobsById` first, then the priority map). -/
def assertJobRemoved (m : Manager) (j : Job) : Except Err Unit :=
  if j.id ∈ m.jobsById then
    .error (assertionFault "cancelled job should have been removed from jobsById map")
  else if j.id ∈ m.tier j.priority then
    .error (assertionFault "cancelled job should have been removed from the priority jobs map")
  else .ok ()

/-- The method `JobManager.isCancelled` (src/index.ts lines 124-133): a job in state
`Cancelled` must (defensively) already be out of both indices. -/
def isCancelled (m : Manager) (j : Job) : Except Err Bool :=
  if j.state = .Cancelled then
    match assertJobRemoved m j with
    | .error e => .error e
    | .ok _ => .ok true
  else .ok false

/-- Delete an id from the priority map `jobs[p]` and from `jobsById`
(`Map.delete` on both). -/
def removeFromBoth (m : Manager) (id : Nat) (p : Priority) : Manager :=
  let m1 := setTier m p ((m.tier p).filter (fun x => x != id))
  { m1 with jobsById := m1.jobsById.filter (fun x => x != id) }

/-- The method `JobManager.removeJob` (src/index.ts lines 157-162): assert the state is
terminal (via `assertTerminalState`, which throws before anything is
deleted), delete the job from both indices, then assert it is gone. -/
def removeJob (m : Manager) (j : Job) : Manager × Except Err Unit :=
  if isTerminalState j.state then
    let m2 := removeFromBoth m j.id j.priority
    match assertJobRemoved m2 j with
    | .error e => (m2, .error e)
    | .ok _ => (m2, .ok ())
  else (m, .error (assertionFault "unexpected terminal state"))

/-- The method `JobManager.createJob` (src/index.ts lines 182-193): construct a job in
state `Created` with a fresh id and an unaborted signal, insert it into the
priority map and into `jobsById` (both `Map.set`s append a new key in
insertion order).  Returns the new id together with the new manager state. -/
def createJob (m : Manager) (name : String) (fn : Callback) (p : Priority) :
    Nat × Manager :=
  let id := m.nextId
  let job : Job :=
    { id := id, name := name, fn := fn, priority := p,
      state := .Created, aborted := false }
  let m1 := { m with store := m.store ++ [(id, job)], nextId := id + 1 }
  let m2 := setTier m1 p (m1.tier p ++ [id])
  (id, { m2 with jobsById := m2.jobsById ++ [id] })

/-- The method `JobManager.cancel` (src/index.ts lines 261-274): look up the id in the
flat index and assert it is known ("unknown job id"); if the job is already
`Cancelled`, return (after `isCancelled`'s defensive assertions); otherwise
apply the `Cancel` transition, remove the job from both indices, and abort
its signal. -/
def cancel (m : Manager) (jobId : Nat) : Manager × Except Err Unit :=
  match getById m jobId with
  | none => (m, .error (assertionFault "unknown job id"))
  | some job =>
    match isCancelled m job with
    | .error e => (m, .error e)
    | .ok true => (m, .ok ())
    | .ok false =>
      match transitionStateJob job .Cancel with
      | .error e => (m, .error e)
      | .ok job2 =>
        let m1 := setJob m job2
        match removeJob m1 job2 with
        | (m2, .error e) => (m2, .error e)
        | (m2, .ok _) =>
          (setJob m2 { job2 with aborted := true }, .ok ())

/-- The `try` block of the per-job closure in `JobManager.runJobs`
(src/index.ts lines 202-233).  Returns the manager, the trace of the job's
callback invocations (one entry of the job's id per invocation, in order),
and `ok true` when the block ran to its end, `ok false` on the early
`return` of the already-cancelled check, or the thrown error. -/
def runJobTry (maxFailures : Nat) (base : ℚ) (jd : Nat → ℚ) (m : Manager)
    (id : Nat) : Manager × List Nat × Except Err Bool :=
  match getStored m id with
  | none => (m, [], .ok false)
  | some job =>
    match isCancelled m job with
    | .error e => (m, [], .error e)
    | .ok true => (m, [], .ok false)
    | .ok false =>
      if job.state = .Created then
        match transitionStateJob job .Start with
        | .error e => (m, [], .error e)
        | .ok job1 =>
          let m1 := setJob m job1
          match withExponentialBackoff job1.fn job1.aborted maxFailures base jd with
          | (res, inv, _sleeps) =>
            let tr := List.replicate inv id
            match res with
            | .error e => (m1, tr, .error e)
            | .ok _ =>
              match getStored m1 id with
              | none => (m1, tr, .ok false)
              | some job2 =>
                match isCancelled m1 job2 with
                | .error e => (m1, tr, .error e)
                | .ok _ =>
                  match transitionStateJob job2 .Complete with
                  | .error e => (m1, tr, .error e)
                  | .ok job3 => (setJob m1 job3, tr, .ok true)
      else (m, [], .error (assertionFault "expected job to be in the Created state"))

/-- The `catch` block of the per-job closure (src/index.ts lines 234-245):
an error named "AbortError" is swallowed after asserting the job is
`Cancelled`; any other error marks the job `Failed` via the `Fail` action. -/
def runJobCatch (m : Manager) (id : Nat) (e : Err) : Manager × Except Err Unit :=
  if e.name = "AbortError" then
    match getStored m id with
    | some j =>
      if j.state = .Cancelled then (m, .ok ())
      else (m, .error (assertionFault "abort error should only be thrown for a cancelled job"))
    | none => (m, .error (assertionFault "abort error should only be thrown for a cancelled job"))
  else
    match getStored m id with
    | none => (m, .ok ())
    | some j =>
      match transitionStateJob j .Fail with
      | .error e2 => (m, .error e2)
      | .ok j2 => (setJob m j2, .ok ())

/-- The `finally` block of the per-job closure (src/index.ts lines 246-250):
assert the job ended in a terminal state, then remove it from both indices.
It runs on every path, and an error it throws replaces a pending one. -/
def runJobFinally (m : Manager) (id : Nat) : Manager × Except Err Unit :=
  match getStored m id with
  | none => (m, .ok ())
  | some j =>
    if isTerminalState j.state then removeJob m j
    else (m, .error (assertionFault "unexpected terminal state"))

/-- The whole per-job closure of `JobManager.runJobs`: try, then catch on a
thrown error, then finally on every path.  The result is the rejection (if
any) of the per-job promise. -/
def runJobOne (maxFailures : Nat) (base : ℚ) (jd : Nat → ℚ) (m : Manager)
    (id : Nat) : Manager × List Nat × Except Err Unit :=
  match runJobTry maxFailures base jd m id with
  | (m1, tr, tb) =>
    let afterCatch : Manager × Except Err Unit :=
      match tb with
      | .ok _ => (m1, .ok ())
      | .error e => runJobCatch m1 id e
    match afterCatch with
    | (m2, car) =>
      match runJobFinally m2 id with
      | (m3, .error e) => (m3, tr, .error e)
      | (m3, .ok _) => (m3, tr, car)

/-- Run the per-job closures of one tier, in map-insertion order over the
snapshot `ids` taken when the tier starts (`Array.from(...)`).  As with
`Promise.all`, every closure runs to completion and the first rejection (if
any) becomes the tier's rejection. -/
def runTierGo (maxFailures : Nat) (base : ℚ) (jd : Nat → ℚ) (m : Manager) :
    List Nat → Manager × List Nat × Except Err Unit
  | [] => (m, [], .ok ())
  | id :: rest =>
    match runJobOne maxFailures base jd m id with
    | (m1, tr1, r1) =>
      match runTierGo maxFailures base jd m1 rest with
      | (m2, tr2, r2) =>
        (m2, tr1 ++ tr2,
         match r1 with
         | .error e => .error e
         | .ok _ => r2)

/-- One iteration of the priority `for`-loop of `runJobs`: snapshot the
tier's id list and drain it. -/
def runTier (maxFailures : Nat) (base : ℚ) (jd : Nat → ℚ) (m : Manager)
    (p : Priority) : Manager × List Nat × Except Err Unit :=
  runTierGo maxFailures base jd m (m.tier p)

/-- The method `JobManager.runJobs(maxFailures)` (src/index.ts lines 195-254): drain
the tiers in the order high, medium, low, awaiting each tier's `Promise.all`
before the next begins; a tier's rejection aborts the loop.  The callbacks
run with a fixed `baseBackoffMillis` of 1000.  The second component is the
trace of all callback invocations, in order. -/
def runJobs (maxFailures : Nat) (jd : Nat → ℚ) (m : Manager) :
    Manager × List Nat × Except Err Unit :=
  match runTier maxFailures 1000 jd m .high with
  | (m1, t1, .error e) => (m1, t1, .error e)
  | (m1, t1, .ok _) =>
    match runTier maxFailures 1000 jd m1 .medium with
    | (m2, t2, .error e) => (m2, t1 ++ t2, .error e)
    | (m2, t2, .ok _) =>
      match runTier maxFailures 1000 jd m2 .low with
      | (m3, t3, r3) => (m3, t1 ++ t2 ++ t3, r3)

/-- The manager state after the high-priority tier of a `runJobs` pass (the
state at the moment the medium tier begins dispatch, when it does). -/
def afterHigh (mf : Nat) (jd : Nat → ℚ) (m : Manager) : Manager :=
  (runTier mf 1000 jd m .high).1

/-- The manager state after the medium-priority tier of a `runJobs` pass
(the state at the moment the low tier begins dispatch, when it does). -/
def afterMedium (mf : Nat) (jd : Nat → ℚ) (m : Manager) : Manager :=
  (runTier mf 1000 jd (afterHigh mf jd m) .medium).1

/-- A callback none of whose thrown errors carries the name "AbortError"
(an ordinary, non-cancellation failure source; note that JS errors built
with `new Error(...)` always qualify, their name being "Error"). -/
def benign (fn : Callback) : Prop :=
  ∀ b k e, fn b k = some e → e.name ≠ "AbortError"

/-- A callback that throws on every invocation (when run unaborted). -/
def alwaysFails (fn : Callback) : Prop :=
  ∀ k, (fn false k).isSome = true

/-- Structural well-formedness of a manager state, invariant between public
operations: the heap is keyed consistently with fresh ids; the index lists
are duplicate-free; an id in a priority tier is in the flat index and its
job carries that priority; an id in the flat index is in its job's tier;
indexed jobs are live (state `Created` or `Processing`, signal unaborted);
unindexed stored jobs are terminal. -/
structure Inv (m : Manager) : Prop where
  keyed : ∀ x ∈ m.store, x.2.id = x.1
  keysNodup : (m.store.map Prod.fst).Nodup
  keysLt : ∀ x ∈ m.store, x.1 < m.nextId
  byIdNodup : m.jobsById.Nodup
  tierNodup : ∀ p, (m.tier p).Nodup
  tierById : ∀ p, ∀ id ∈ m.tier p, id ∈ m.jobsById
  tierPrio : ∀ p, ∀ id ∈ m.tier p, ∀ j, getStored m id = some j → j.priority = p
  byIdTier : ∀ id ∈ m.jobsById, ∀ j, getStored m id = some j → id ∈ m.tier j.priority
  byIdStored : ∀ id ∈ m.jobsById, (getStored m id).isSome = true
  idxState : ∀ id ∈ m.jobsById, ∀ j, getStored m id = some j →
    (j.state = .Created ∨ j.state = .Processing) ∧ j.aborted = false
  offTerminal : ∀ x ∈ m.store, x.1 ∉ m.jobsById → isTerminalState x.2.state = true

/-- Every indexed job is still in state `Created` (true between public
operations: `runJobs` leaves no indexed `Processing` job behind when it
completes normally). -/
def allCreated (m : Manager) : Prop :=
  ∀ id ∈ m.jobsById, ∀ j, getStored m id = some j → j.state = .Created

/-- The dual-index invariant of the spec: every job object is in both
indices or in neither, and it is in both exactly when its state is
non-terminal. -/
def dualIndexInv (m : Manager) : Prop :=
  ∀ x ∈ m.store,
    ((x.1 ∈ m.jobsById ∧ x.1 ∈ m.tier x.2.priority) ∨
      (x.1 ∉ m.jobsById ∧ ∀ p, x.1 ∉ m.tier p)) ∧
    ((x.1 ∈ m.jobsById ∧ x.1 ∈ m.tier x.2.priority) ↔
      isTerminalState x.2.state = false)

/-- A callback that always returns normally (`() => {}` in the tests). -/
def okFn : Callback := fun _ _ => none

/-- A callback that always throws `new Error("TestError")` (as in the
`should retry failed jobs` test). -/
def testFailFn : Callback := fun _ _ => some (newError "TestError")

/-- A jitter source whose every `Math.random()` draw is 0. -/
def zeroJitter : Nat → ℚ := fun _ => 0

/-- Scenario: one job (id 0) of high priority with an always-succeeding
callback. -/
def mgrOne : Manager := (createJob emptyManager "job-1" okFn .high).2

/-- Scenario: job 0 of high priority and job 1 of low priority, both with
always-succeeding callbacks. -/
def mgrHiLo : Manager :=
  (createJob (createJob emptyManager "hi-job" okFn .high).2 "lo-job" okFn .low).2

/-- Scenario: one job (id 0) of high priority whose callback always throws. -/
def mgrFail : Manager := (createJob emptyManager "fail-job" testFailFn .high).2

/-- Scenario: `mgrOne` after a `runJobs` pass, so job 0 is Completed and has
been removed from both indices. -/
def mgrDone : Manager := (runJobs 0 zeroJitter mgrOne).1

end StateMachineRepo

/-! Helper lemmas about the embedding. -/

namespace StateMachineRepo



lemma lookupStore_eq_none {id : Nat} {st : List (Nat × Job)} :
    lookupStore id st = none ↔ id ∉ st.map Prod.fst := by
  induction st with
  | nil => simp [lookupStore]
  | cons x rest ih =>
    obtain ⟨k, j⟩ := x
    by_cases h : k = id
    · subst h
      simp [lookupStore]
    · rw [lookupStore, if_neg h, ih]
      simp only [List.map_cons, List.mem_cons]
      constructor
      · intro hn hor
        rcases hor with h1 | h1
        · exact h h1.symm
        · exact hn h1
      · intro hn h1
        exact hn (Or.inr h1)

lemma lookupStore_isSome {id : Nat} {st : List (Nat × Job)} :
    (lookupStore id st).isSome = true ↔ id ∈ st.map Prod.fst := by
  rcases h : lookupStore id st with _ | j
  · simp [lookupStore_eq_none.mp h]
  · simp only [Option.isSome_some, true_iff]
    by_contra hmem
    rw [lookupStore_eq_none.mpr hmem] at h
    exact Option.noConfusion h

lemma lookupStore_mem {id : Nat} {st : List (Nat × Job)} {j : Job}
    (h : lookupStore id st = some j) : (id, j) ∈ st := by
  induction st with
  | nil => exact absurd h (by simp [lookupStore])
  | cons x rest ih =>
    obtain ⟨k, j2⟩ := x
    by_cases hk : k = id
    · subst hk
      rw [lookupStore, if_pos rfl] at h
      obtain rfl := Option.some.injEq .. ▸ h
      simp_all
    · rw [lookupStore, if_neg hk] at h
      exact List.mem_cons_of_mem _ (ih h)

lemma lookupStore_update_self {id : Nat} {j : Job} {st : List (Nat × Job)} :
    lookupStore id (updateStore id j st) = (lookupStore id st).map (fun _ => j) := by
  induction st with
  | nil => simp [lookupStore, updateStore]
  | cons x rest ih =>
    obtain ⟨k, o⟩ := x
    by_cases h : k = id <;> simp [lookupStore, updateStore, h, ih]

lemma lookupStore_update_ne {i id : Nat} {j : Job} {st : List (Nat × Job)}
    (h : i ≠ id) :
    lookupStore i (updateStore id j st) = lookupStore i st := by
  induction st with
  | nil => simp [updateStore]
  | cons x rest ih =>
    obtain ⟨k, o⟩ := x
    by_cases hk : k = id
    · subst hk
      rw [updateStore, if_pos rfl, lookupStore, lookupStore, if_neg, if_neg]
      · exact ih
      · exact fun hh => h (hh ▸ rfl)
      · exact fun hh => h (hh ▸ rfl)
    · rw [updateStore, if_neg hk, lookupStore, lookupStore]
      by_cases hi : k = i <;> simp [hi, ih]

lemma updateStore_keys {id : Nat} {j : Job} {st : List (Nat × Job)} :
    (updateStore id j st).map Prod.fst = st.map Prod.fst := by
  induction st with
  | nil => rfl
  | cons x rest ih =>
    obtain ⟨k, o⟩ := x
    by_cases h : k = id <;> simp [updateStore, h, ih]

lemma mem_updateStore {x : Nat × Job} {id : Nat} {j : Job} {st : List (Nat × Job)}
    (hx : x ∈ updateStore id j st) :
    (x.1 = id ∧ x.2 = j ∧ id ∈ st.map Prod.fst) ∨ (x ∈ st ∧ x.1 ≠ id) := by
  induction st with
  | nil => exact absurd hx (by simp [updateStore])
  | cons y rest ih =>
    obtain ⟨k, o⟩ := y
    by_cases h : k = id
    · subst h
      rw [updateStore, if_pos rfl] at hx
      rcases List.mem_cons.mp hx with h1 | h1
      · subst h1; simp
      · rcases ih h1 with h2 | h2
        · exact Or.inl ⟨h2.1, h2.2.1, by simp [h2.2.2]⟩
        · exact Or.inr ⟨List.mem_cons_of_mem _ h2.1, h2.2⟩
    · rw [updateStore, if_neg h] at hx
      rcases List.mem_cons.mp hx with h1 | h1
      · subst h1
        exact Or.inr ⟨List.mem_cons_self _ _, by simpa using h⟩
      · rcases ih h1 with h2 | h2
        · exact Or.inl ⟨h2.1, h2.2.1, by simp [h2.2.2]⟩
        · exact Or.inr ⟨List.mem_cons_of_mem _ h2.1, h2.2⟩

lemma lookupStore_append_new {i id : Nat} {j : Job} {st : List (Nat × Job)} :
    lookupStore i (st ++ [(id, j)]) =
      match lookupStore i st with
      | some x => some x
      | none => if id = i then some j else none := by
  induction st with
  | nil => simp [lookupStore]
  | cons y rest ih =>
    obtain ⟨k, o⟩ := y
    by_cases h : k = i <;> simp [lookupStore, h, ih]



lemma tier_setTier (m : Manager) (p : Priority) (l : List Nat) (q : Priority) :
    (setTier m p l).tier q = if q = p then l else m.tier q := by
  cases p <;> cases q <;> simp [setTier, Manager.tier]

lemma setTier_store (m : Manager) (p : Priority) (l : List Nat) :
    (setTier m p l).store = m.store := by
  cases p <;> rfl

lemma setTier_byId (m : Manager) (p : Priority) (l : List Nat) :
    (setTier m p l).jobsById = m.jobsById := by
  cases p <;> rfl

lemma setTier_nextId (m : Manager) (p : Priority) (l : List Nat) :
    (setTier m p l).nextId = m.nextId := by
  cases p <;> rfl

lemma setJob_tier (m : Manager) (j : Job) (q : Priority) :
    (setJob m j).tier q = m.tier q := by
  cases q <;> rfl

lemma setJob_byId (m : Manager) (j : Job) : (setJob m j).jobsById = m.jobsById := rfl

lemma setJob_nextId (m : Manager) (j : Job) : (setJob m j).nextId = m.nextId := rfl

lemma setJob_store (m : Manager) (j : Job) :
    (setJob m j).store = updateStore j.id j m.store := rfl

lemma getStored_setJob_self (m : Manager) (j : Job) :
    getStored (setJob m j) j.id = (getStored m j.id).map (fun _ => j) :=
  lookupStore_update_self

lemma getStored_setJob_ne (m : Manager) (j : Job) {i : Nat} (h : i ≠ j.id) :
    getStored (setJob m j) i = getStored m i :=
  lookupStore_update_ne h

lemma removeFromBoth_store (m : Manager) (id : Nat) (p : Priority) :
    (removeFromBoth m id p).store = m.store := by
  simp [removeFromBoth, setTier_store]

lemma removeFromBoth_nextId (m : Manager) (id : Nat) (p : Priority) :
    (removeFromBoth m id p).nextId = m.nextId := by
  simp [removeFromBoth, setTier_nextId]

lemma removeFromBoth_byId (m : Manager) (id : Nat) (p : Priority) :
    (removeFromBoth m id p).jobsById = m.jobsById.filter (fun x => x != id) := by
  simp [removeFromBoth, setTier_byId]

lemma removeFromBoth_tier (m : Manager) (id : Nat) (p : Priority) (q : Priority) :
    (removeFromBoth m id p).tier q =
      if q = p then (m.tier p).filter (fun x => x != id) else m.tier q := by
  rw [removeFromBoth]
  cases p <;> cases q <;> simp [setTier, Manager.tier]

lemma mem_filter_ne {l : List Nat} {x id : Nat} :
    x ∈ l.filter (fun y => y != id) ↔ x ∈ l ∧ x ≠ id := by
  simp [List.mem_filter]

lemma not_mem_filter_self {l : List Nat} {id : Nat} :
    id ∉ l.filter (fun y => y != id) := by
  simp [List.mem_filter]



lemma updateStore_updateStore {id : Nat} {a b : Job} {st : List (Nat × Job)} :
    updateStore id b (updateStore id a st) = updateStore id b st := by
  induction st with
  | nil => rfl
  | cons x rest ih =>
    obtain ⟨k, o⟩ := x
    by_cases h : k = id <;> simp [updateStore, h, ih]

lemma setJob_setJob {m : Manager} {a b : Job} (h : b.id = a.id) :
    setJob (setJob m a) b = setJob m b := by
  simp [setJob, h, updateStore_updateStore]

lemma isCancelled_of_ne {m : Manager} {j : Job} (h : ¬ j.state = .Cancelled) :
    isCancelled m j = .ok false := by
  rw [isCancelled, if_neg h]

lemma transitionStateJob_eq {j : Job} {a : JobAction} {s2 : JobState}
    (h : stateMachine j.state a = some s2) :
    transitionStateJob j a = .ok { j with state := s2 } := by
  rw [transitionStateJob, h]

lemma getStored_setJob_of (m : Manager) {id : Nat} {j j2 : Job}
    (hst : getStored m id = some j) (hid : j2.id = id) :
    getStored (setJob m j2) id = some j2 := by
  unfold setJob getStored
  rw [hid, lookupStore_update_self, show lookupStore id m.store = some j from hst]
  rfl

lemma runJobTry_ready_ok {mf : Nat} {base : ℚ} {jd : Nat → ℚ} {m : Manager}
    {id : Nat} {j : Job} (hst : getStored m id = some j) (hid : j.id = id)
    (hC : j.state = .Created) (hA : j.aborted = false) {inv : Nat} {sl : List ℚ}
    (hex : withExponentialBackoff j.fn false mf base jd = (.ok (), inv, sl)) :
    runJobTry mf base jd m id =
      (setJob m { j with state := .Completed }, List.replicate inv id, .ok true) := by
  rw [runJobTry, hst]
  dsimp only
  rw [isCancelled_of_ne (by rw [hC]; exact fun h => JobState.noConfusion h)]
  dsimp only
  rw [if_pos hC]
  rw [@transitionStateJob_eq j .Start .Processing (by rw [hC]; rfl)]
  dsimp only
  have hexec : withExponentialBackoff ({ j with state := JobState.Processing } : Job).fn
      ({ j with state := JobState.Processing } : Job).aborted mf base jd = (.ok (), inv, sl) := by
    show withExponentialBackoff j.fn j.aborted mf base jd = _
    rw [hA]
    exact hex
  rw [hexec]
  dsimp only
  rw [@getStored_setJob_of m id j { j with state := JobState.Processing } hst hid]
  dsimp only
  rw [isCancelled_of_ne (j := { j with state := JobState.Processing })
      (fun h => JobState.noConfusion h)]
  dsimp only
  rw [@transitionStateJob_eq { j with state := JobState.Processing } .Complete .Completed rfl]
  dsimp only
  rw [setJob_setJob (a := { j with state := JobState.Processing })
      (b := { j with state := JobState.Completed }) rfl]



lemma runJobTry_ready_err {mf : Nat} {base : ℚ} {jd : Nat → ℚ} {m : Manager}
    {id : Nat} {j : Job} (hst : getStored m id = some j) (hid : j.id = id)
    (hC : j.state = .Created) (hA : j.aborted = false) {e : Err} {inv : Nat}
    {sl : List ℚ}
    (hex : withExponentialBackoff j.fn false mf base jd = (.error e, inv, sl)) :
    runJobTry mf base jd m id =
      (setJob m { j with state := .Processing }, List.replicate inv id, .error e) := by
  rw [runJobTry, hst]
  dsimp only
  rw [isCancelled_of_ne (by rw [hC]; exact fun h => JobState.noConfusion h)]
  dsimp only
  rw [if_pos hC]
  rw [@transitionStateJob_eq j .Start .Processing (by rw [hC]; rfl)]
  dsimp only
  have hexec : withExponentialBackoff ({ j with state := JobState.Processing } : Job).fn
      ({ j with state := JobState.Processing } : Job).aborted mf base jd = (.error e, inv, sl) := by
    show withExponentialBackoff j.fn j.aborted mf base jd = _
    rw [hA]
    exact hex
  rw [hexec]

lemma assertJobRemoved_after (m : Manager) (j : Job) :
    assertJobRemoved (removeFromBoth m j.id j.priority) j = .ok () := by
  rw [assertJobRemoved, if_neg, if_neg]
  · rw [removeFromBoth_tier, if_pos rfl]
    exact not_mem_filter_self
  · rw [removeFromBoth_byId]
    exact not_mem_filter_self

lemma runJobFinally_terminal {m : Manager} {id : Nat} {j : Job}
    (hst : getStored m id = some j) (hid : j.id = id)
    (hterm : isTerminalState j.state = true) :
    runJobFinally m id = (removeFromBoth m id j.priority, .ok ()) := by
  rw [runJobFinally, hst]
  dsimp only
  rw [if_pos hterm, removeJob, if_pos hterm]
  rw [show removeFromBoth m j.id j.priority = removeFromBoth m id j.priority from hid ▸ rfl]
  dsimp only
  rw [show assertJobRemoved (removeFromBoth m id j.priority) j = .ok () from
    hid ▸ assertJobRemoved_after m j]

lemma runJobCatch_fail {m : Manager} {id : Nat} {j : Job} {e : Err}
    (he : ¬ e.name = "AbortError") (hst : getStored m id = some j)
    (hP : j.state = .Processing) :
    runJobCatch m id e = (setJob m { j with state := .Failed }, .ok ()) := by
  rw [runJobCatch, if_neg he, hst]
  dsimp only
  rw [@transitionStateJob_eq j .Fail .Failed (by rw [hP]; rfl)]



lemma runJobOne_ok_case {mf : Nat} {base : ℚ} {jd : Nat → ℚ} {m : Manager}
    {id : Nat} {j : Job} (hst : getStored m id = some j) (hid : j.id = id)
    (hC : j.state = .Created) (hA : j.aborted = false) {inv : Nat} {sl : List ℚ}
    (hex : withExponentialBackoff j.fn false mf base jd = (.ok (), inv, sl)) :
    runJobOne mf base jd m id =
      (removeFromBoth (setJob m { j with state := .Completed }) id j.priority,
       List.replicate inv id, .ok ()) := by
  rw [runJobOne, runJobTry_ready_ok hst hid hC hA hex]
  dsimp only
  rw [runJobFinally_terminal
    (@getStored_setJob_of m id j { j with state := JobState.Completed } hst hid)
    hid rfl]

lemma runJobOne_fail_case {mf : Nat} {base : ℚ} {jd : Nat → ℚ} {m : Manager}
    {id : Nat} {j : Job} (hst : getStored m id = some j) (hid : j.id = id)
    (hC : j.state = .Created) (hA : j.aborted = false) {e : Err} {inv : Nat}
    {sl : List ℚ}
    (hex : withExponentialBackoff j.fn false mf base jd = (.error e, inv, sl))
    (he : ¬ e.name = "AbortError") :
    runJobOne mf base jd m id =
      (removeFromBoth (setJob m { j with state := .Failed }) id j.priority,
       List.replicate inv id, .ok ()) := by
  rw [runJobOne, runJobTry_ready_err hst hid hC hA hex]
  dsimp only
  rw [runJobCatch_fail he
    (@getStored_setJob_of m id j { j with state := JobState.Processing } hst hid) rfl]
  dsimp only
  rw [setJob_setJob (a := { j with state := JobState.Processing })
      (b := { j with state := JobState.Failed }) rfl]
  rw [runJobFinally_terminal
    (@getStored_setJob_of m id j { j with state := JobState.Failed } hst hid)
    hid rfl]

lemma runJobOne_abortName_case {mf : Nat} {base : ℚ} {jd : Nat → ℚ} {m : Manager}
    {id : Nat} {j : Job} (hst : getStored m id = some j) (hid : j.id = id)
    (hC : j.state = .Created) (hA : j.aborted = false) {e : Err} {inv : Nat}
    {sl : List ℚ}
    (hex : withExponentialBackoff j.fn false mf base jd = (.error e, inv, sl))
    (he : e.name = "AbortError") :
    runJobOne mf base jd m id =
      (setJob m { j with state := .Processing }, List.replicate inv id,
       .error (assertionFault "unexpected terminal state")) := by
  rw [runJobOne, runJobTry_ready_err hst hid hC hA hex]
  dsimp only
  rw [runJobCatch, if_pos he,
    @getStored_setJob_of m id j { j with state := JobState.Processing } hst hid]
  dsimp only
  rw [if_neg (show ¬ ({ j with state := JobState.Processing } : Job).state = .Cancelled from
    fun h => JobState.noConfusion h)]
  dsimp only
  rw [runJobFinally,
    @getStored_setJob_of m id j { j with state := JobState.Processing } hst hid]
  dsimp only
  rw [if_neg (by decide : ¬ isTerminalState JobState.Processing = true)]



lemma getStored_mem_keys {m : Manager} {id : Nat} {j : Job}
    (h : getStored m id = some j) : id ∈ m.store.map Prod.fst :=
  lookupStore_isSome.mp (by rw [show getStored m id = lookupStore id m.store from rfl] at h; simp [h])



lemma setJob_removeFromBoth (m : Manager) (a : Job) (id : Nat) (p : Priority) :
    setJob (removeFromBoth m id p) a = removeFromBoth (setJob m a) id p := by
  cases p <;> rfl

lemma Inv_after_terminal {m : Manager} {id : Nat} {j jT : Job}
    (hI : Inv m) (hst : getStored m id = some j) (hmem : id ∈ m.jobsById)
    (hidT : jT.id = id) (hpT : jT.priority = j.priority)
    (hterm : isTerminalState jT.state = true) :
    Inv (removeFromBoth (setJob m jT) id j.priority) := by
  set m2 := removeFromBoth (setJob m jT) id j.priority with hm2
  have hstore : m2.store = updateStore id jT m.store := by
    rw [hm2, removeFromBoth_store, setJob_store, hidT]
  have hbyid : m2.jobsById = m.jobsById.filter (fun x => x != id) := by
    rw [hm2, removeFromBoth_byId, setJob_byId]
  have htier : ∀ q, m2.tier q =
      if q = j.priority then (m.tier j.priority).filter (fun x => x != id)
      else m.tier q := by
    intro q
    rw [hm2, removeFromBoth_tier]
    by_cases h : q = j.priority <;> simp [h, setJob_tier]
  have hnext : m2.nextId = m.nextId := by
    rw [hm2, removeFromBoth_nextId, setJob_nextId]
  have hget : ∀ i, i ≠ id → getStored m2 i = getStored m i := by
    intro i hi
    show lookupStore i m2.store = getStored m i
    rw [hstore]
    exact lookupStore_update_ne hi
  have hgetSelf : getStored m2 id = some jT := by
    show lookupStore id m2.store = some jT
    rw [hstore, lookupStore_update_self,
      show lookupStore id m.store = some j from hst]
    rfl
  have hIdNotTier : ∀ q, q ≠ j.priority → id ∉ m.tier q := by
    intro q hq hmemq
    exact hq (hI.tierPrio q id hmemq j hst).symm
  constructor
  · -- keyed
    intro x hx
    rw [hstore] at hx
    rcases mem_updateStore hx with h1 | h1
    · rw [h1.2.1, h1.1, hidT]
    · exact hI.keyed x h1.1
  · -- keysNodup
    rw [hstore, updateStore_keys]
    exact hI.keysNodup
  · -- keysLt
    intro x hx
    rw [hstore] at hx
    rw [hnext]
    rcases mem_updateStore hx with h1 | h1
    · rw [h1.1]
      exact hI.keysLt _ (lookupStore_mem hst)
    · exact hI.keysLt x h1.1
  · -- byIdNodup
    rw [hbyid]
    exact hI.byIdNodup.filter _
  · -- tierNodup
    intro q
    rw [htier]
    by_cases h : q = j.priority
    · rw [if_pos h]
      exact (hI.tierNodup _).filter _
    · rw [if_neg h]
      exact hI.tierNodup q
  · -- tierById
    intro q i hi
    rw [htier] at hi
    rw [hbyid, mem_filter_ne]
    by_cases h : q = j.priority
    · rw [if_pos h] at hi
      obtain ⟨hi1, hi2⟩ := mem_filter_ne.mp hi
      exact ⟨hI.tierById q i (by rw [h]; exact hi1), hi2⟩
    · rw [if_neg h] at hi
      refine ⟨hI.tierById q i hi, ?_⟩
      intro hEq
      exact hIdNotTier q h (hEq ▸ hi)
  · -- tierPrio
    intro q i hi j2 hj2
    rw [htier] at hi
    have hine : i ≠ id := by
      by_cases h : q = j.priority
      · rw [if_pos h] at hi
        exact (mem_filter_ne.mp hi).2
      · rw [if_neg h] at hi
        intro hEq
        exact hIdNotTier q h (hEq ▸ hi)
    rw [hget i hine] at hj2
    by_cases h : q = j.priority
    · rw [if_pos h] at hi
      exact hI.tierPrio q i (by rw [h]; exact (mem_filter_ne.mp hi).1) j2 hj2
    · rw [if_neg h] at hi
      exact hI.tierPrio q i hi j2 hj2
  · -- byIdTier
    intro i hi j2 hj2
    rw [hbyid, mem_filter_ne] at hi
    rw [hget i hi.2] at hj2
    rw [htier]
    have := hI.byIdTier i hi.1 j2 hj2
    by_cases h : j2.priority = j.priority
    · rw [if_pos h, mem_filter_ne]
      exact ⟨h ▸ this, hi.2⟩
    · rw [if_neg h]
      exact this
  · -- byIdStored
    intro i hi
    rw [hbyid, mem_filter_ne] at hi
    rw [hget i hi.2]
    exact hI.byIdStored i hi.1
  · -- idxState
    intro i hi j2 hj2
    rw [hbyid, mem_filter_ne] at hi
    rw [hget i hi.2] at hj2
    exact hI.idxState i hi.1 j2 hj2
  · -- offTerminal
    intro x hx hnx
    rw [hstore] at hx
    rw [hbyid] at hnx
    rcases mem_updateStore hx with h1 | h1
    · rw [h1.2.1]
      exact hterm
    · rw [mem_filter_ne] at hnx
      push_neg at hnx
      by_cases hxin : x.1 ∈ m.jobsById
      · exact absurd (hnx hxin) (by simpa using h1.2)
      · exact hI.offTerminal x h1.1 hxin



lemma Inv_setJob_live {m : Manager} {id : Nat} {j jN : Job}
    (hI : Inv m) (hst : getStored m id = some j) (hmem : id ∈ m.jobsById)
    (hidN : jN.id = id) (hpN : jN.priority = j.priority)
    (hstate : jN.state = .Created ∨ jN.state = .Processing)
    (habt : jN.aborted = false) :
    Inv (setJob m jN) := by
  have hstore : (setJob m jN).store = updateStore id jN m.store := by
    rw [setJob_store, hidN]
  have hget : ∀ i, i ≠ id → getStored (setJob m jN) i = getStored m i := by
    intro i hi
    show lookupStore i (setJob m jN).store = getStored m i
    rw [hstore]
    exact lookupStore_update_ne hi
  have hgetSelf : getStored (setJob m jN) id = some jN := by
    show lookupStore id (setJob m jN).store = some jN
    rw [hstore, lookupStore_update_self,
      show lookupStore id m.store = some j from hst]
    rfl
  constructor
  · intro x hx
    rw [hstore] at hx
    rcases mem_updateStore hx with h1 | h1
    · rw [h1.2.1, h1.1, hidN]
    · exact hI.keyed x h1.1
  · rw [hstore, updateStore_keys]
    exact hI.keysNodup
  · intro x hx
    rw [hstore] at hx
    rw [show (setJob m jN).nextId = m.nextId from setJob_nextId m jN]
    rcases mem_updateStore hx with h1 | h1
    · rw [h1.1]
      exact hI.keysLt _ (lookupStore_mem hst)
    · exact hI.keysLt x h1.1
  · rw [setJob_byId]
    exact hI.byIdNodup
  · intro q
    rw [setJob_tier]
    exact hI.tierNodup q
  · intro q i hi
    rw [setJob_tier] at hi
    rw [setJob_byId]
    exact hI.tierById q i hi
  · intro q i hi j2 hj2
    rw [setJob_tier] at hi
    by_cases h : i = id
    · subst h
      rw [hgetSelf] at hj2
      obtain rfl := Option.some.injEq .. ▸ hj2
      rw [hpN]
      exact hI.tierPrio q i hi j hst
    · rw [hget i h] at hj2
      exact hI.tierPrio q i hi j2 hj2
  · intro i hi j2 hj2
    rw [setJob_byId] at hi
    rw [setJob_tier]
    by_cases h : i = id
    · subst h
      rw [hgetSelf] at hj2
      obtain rfl := Option.some.injEq .. ▸ hj2
      rw [hpN]
      exact hI.byIdTier i hi j hst
    · rw [hget i h] at hj2
      exact hI.byIdTier i hi j2 hj2
  · intro i hi
    rw [setJob_byId] at hi
    by_cases h : i = id
    · subst h
      rw [hgetSelf]
      rfl
    · rw [hget i h]
      exact hI.byIdStored i hi
  · intro i hi j2 hj2
    rw [setJob_byId] at hi
    by_cases h : i = id
    · subst h
      rw [hgetSelf] at hj2
      obtain rfl := Option.some.injEq .. ▸ hj2
      exact ⟨hstate, habt⟩
    · rw [hget i h] at hj2
      exact hI.idxState i hi j2 hj2
  · intro x hx hnx
    rw [hstore] at hx
    rw [setJob_byId] at hnx
    rcases mem_updateStore hx with h1 | h1
    · exact absurd (h1.1 ▸ hmem) hnx
    · exact hI.offTerminal x h1.1 hnx



lemma createJob_proj (m : Manager) (name : String) (fn : Callback) (p : Priority) :
    (createJob m name fn p).1 = m.nextId ∧
    (createJob m name fn p).2.store = m.store ++
      [(m.nextId, { id := m.nextId, name := name, fn := fn, priority := p,
                    state := .Created, aborted := false })] ∧
    (createJob m name fn p).2.nextId = m.nextId + 1 ∧
    (createJob m name fn p).2.jobsById = m.jobsById ++ [m.nextId] ∧
    ∀ q, (createJob m name fn p).2.tier q =
      if q = p then m.tier p ++ [m.nextId] else m.tier q := by
  refine ⟨rfl, ?_, ?_, ?_, ?_⟩
  · cases p <;> rfl
  · cases p <;> rfl
  · cases p <;> rfl
  · intro q
    cases p <;> cases q <;> simp [createJob, setTier, Manager.tier]

lemma nextId_not_mem_byId {m : Manager} (hI : Inv m) : m.nextId ∉ m.jobsById := by
  intro hmem
  have h1 := hI.byIdStored _ hmem
  rcases hj : getStored m m.nextId with _ | j
  · rw [hj] at h1
    exact Bool.noConfusion h1
  · exact absurd (hI.keysLt _ (lookupStore_mem hj)) (lt_irrefl _)

lemma nextId_not_mem_keys {m : Manager} (hI : Inv m) :
    m.nextId ∉ m.store.map Prod.fst := by
  intro hmem
  obtain ⟨x, hx, hfst⟩ := List.mem_map.mp hmem
  exact absurd (hfst ▸ hI.keysLt x hx) (lt_irrefl _)

lemma getStored_createJob (m : Manager) (hI : Inv m) (name : String)
    (fn : Callback) (p : Priority) :
    getStored (createJob m name fn p).2 m.nextId =
      some { id := m.nextId, name := name, fn := fn, priority := p,
             state := .Created, aborted := false } ∧
    ∀ i, i ≠ m.nextId → getStored (createJob m name fn p).2 i = getStored m i := by
  obtain ⟨-, hstore, -, -, -⟩ := createJob_proj m name fn p
  constructor
  · show lookupStore _ _ = _
    rw [hstore, lookupStore_append_new,
      show lookupStore m.nextId m.store = none from
        lookupStore_eq_none.mpr (nextId_not_mem_keys hI)]
    simp
  · intro i hi
    show lookupStore _ _ = _
    rw [hstore, lookupStore_append_new]
    rcases h : lookupStore i m.store with _ | x <;> dsimp only
    · rw [if_neg (fun hh => hi hh.symm)]
      exact h.symm
    · exact h.symm

lemma Inv_createJob {m : Manager} (hI : Inv m) (name : String) (fn : Callback)
    (p : Priority) : Inv (createJob m name fn p).2 := by
  obtain ⟨-, hstore, hnext, hbyid, htier⟩ := createJob_proj m name fn p
  obtain ⟨hgetNew, hgetOld⟩ := getStored_createJob m hI name fn p
  have hfreshTier : ∀ q, m.nextId ∉ m.tier q := fun q hmem =>
    nextId_not_mem_byId hI (hI.tierById q _ hmem)
  constructor
  · intro x hx
    rw [hstore] at hx
    rcases List.mem_append.mp hx with h1 | h1
    · exact hI.keyed x h1
    · rw [List.mem_singleton.mp h1]
  · rw [hstore]
    simp only [List.map_append, List.map_cons, List.map_nil]
    rw [List.nodup_append]
    refine ⟨hI.keysNodup, List.nodup_singleton _, ?_⟩
    intro a ha hamem
    rw [List.mem_singleton] at hamem
    exact nextId_not_mem_keys hI (hamem ▸ ha)
  · intro x hx
    rw [hstore] at hx
    rw [hnext]
    rcases List.mem_append.mp hx with h1 | h1
    · exact Nat.lt_succ_of_lt (hI.keysLt x h1)
    · rw [List.mem_singleton.mp h1]
      exact Nat.lt_succ_self _
  · rw [hbyid, List.nodup_append]
    refine ⟨hI.byIdNodup, List.nodup_singleton _, ?_⟩
    intro a ha hamem
    rw [List.mem_singleton] at hamem
    exact nextId_not_mem_byId hI (hamem ▸ ha)
  · intro q
    rw [htier]
    by_cases h : q = p
    · rw [if_pos h, List.nodup_append]
      refine ⟨hI.tierNodup p, List.nodup_singleton _, ?_⟩
      intro a ha hamem
      rw [List.mem_singleton] at hamem
      exact hfreshTier p (hamem ▸ ha)
    · rw [if_neg h]
      exact hI.tierNodup q
  · intro q i hi
    rw [htier] at hi
    rw [hbyid, List.mem_append]
    by_cases h : q = p
    · rw [if_pos h] at hi
      rcases List.mem_append.mp hi with h1 | h1
      · exact Or.inl (hI.tierById p i h1)
      · exact Or.inr h1
    · rw [if_neg h] at hi
      exact Or.inl (hI.tierById q i hi)
  · intro q i hi j2 hj2
    rw [htier] at hi
    by_cases hiq : i = m.nextId
    · subst hiq
      rw [hgetNew] at hj2
      obtain rfl := Option.some.injEq .. ▸ hj2
      by_cases h : q = p
      · exact h.symm
      · rw [if_neg h] at hi
        exact absurd hi (hfreshTier q)
    · rw [hgetOld i hiq] at hj2
      by_cases h : q = p
      · rw [if_pos h] at hi
        rcases List.mem_append.mp hi with h1 | h1
        · rw [h]
          exact hI.tierPrio p i h1 j2 hj2
        · exact absurd (List.mem_singleton.mp h1) hiq
      · rw [if_neg h] at hi
        exact hI.tierPrio q i hi j2 hj2
  · intro i hi j2 hj2
    rw [hbyid] at hi
    rw [htier]
    by_cases hiq : i = m.nextId
    · subst hiq
      rw [hgetNew] at hj2
      obtain rfl := Option.some.injEq .. ▸ hj2
      rw [if_pos rfl]
      exact List.mem_append.mpr (Or.inr (List.mem_singleton.mpr rfl))
    · rw [hgetOld i hiq] at hj2
      have h1 : i ∈ m.jobsById := by
        rcases List.mem_append.mp hi with h2 | h2
        · exact h2
        · exact absurd (List.mem_singleton.mp h2) hiq
      have h2 := hI.byIdTier i h1 j2 hj2
      by_cases h : j2.priority = p
      · rw [if_pos h]
        exact List.mem_append.mpr (Or.inl (h ▸ h2))
      · rw [if_neg h]
        exact h2
  · intro i hi
    rw [hbyid] at hi
    by_cases hiq : i = m.nextId
    · subst hiq
      rw [hgetNew]
      rfl
    · rw [hgetOld i hiq]
      rcases List.mem_append.mp hi with h2 | h2
      · exact hI.byIdStored i h2
      · exact absurd (List.mem_singleton.mp h2) hiq
  · intro i hi j2 hj2
    rw [hbyid] at hi
    by_cases hiq : i = m.nextId
    · subst hiq
      rw [hgetNew] at hj2
      obtain rfl := Option.some.injEq .. ▸ hj2
      exact ⟨Or.inl rfl, rfl⟩
    · rw [hgetOld i hiq] at hj2
      rcases List.mem_append.mp hi with h2 | h2
      · exact hI.idxState i h2 j2 hj2
      · exact absurd (List.mem_singleton.mp h2) hiq
  · intro x hx hnx
    rw [hstore] at hx
    rw [hbyid] at hnx
    rcases List.mem_append.mp hx with h1 | h1
    · refine hI.offTerminal x h1 ?_
      intro hmem
      exact hnx (List.mem_append.mpr (Or.inl hmem))
    · rw [List.mem_singleton.mp h1] at hnx
      exact absurd (List.mem_append.mpr (Or.inr (List.mem_singleton.mpr rfl))) hnx

lemma allCreated_createJob {m : Manager} (hI : Inv m) (hC : allCreated m)
    (name : String) (fn : Callback) (p : Priority) :
    allCreated (createJob m name fn p).2 := by
  obtain ⟨-, -, -, hbyid, -⟩ := createJob_proj m name fn p
  obtain ⟨hgetNew, hgetOld⟩ := getStored_createJob m hI name fn p
  intro i hi j2 hj2
  rw [hbyid] at hi
  by_cases hiq : i = m.nextId
  · subst hiq
    rw [hgetNew] at hj2
    obtain rfl := Option.some.injEq .. ▸ hj2
    rfl
  · rw [hgetOld i hiq] at hj2
    rcases List.mem_append.mp hi with h2 | h2
    · exact hC i h2 j2 hj2
    · exact absurd (List.mem_singleton.mp h2) hiq



lemma rsj_byId (m : Manager) (jT : Job) (id : Nat) (p : Priority) :
    (removeFromBoth (setJob m jT) id p).jobsById =
      m.jobsById.filter (fun x => x != id) := by
  rw [removeFromBoth_byId, setJob_byId]

lemma rsj_tier (m : Manager) (jT : Job) (id : Nat) (p : Priority) (q : Priority) :
    (removeFromBoth (setJob m jT) id p).tier q =
      if q = p then (m.tier p).filter (fun x => x != id) else m.tier q := by
  rw [removeFromBoth_tier]
  by_cases h : q = p <;> simp [h, setJob_tier]

lemma rsj_nextId (m : Manager) (jT : Job) (id : Nat) (p : Priority) :
    (removeFromBoth (setJob m jT) id p).nextId = m.nextId := by
  rw [removeFromBoth_nextId, setJob_nextId]

lemma rsj_store {m : Manager} {jT : Job} {id : Nat} (p : Priority)
    (hidT : jT.id = id) :
    (removeFromBoth (setJob m jT) id p).store = updateStore id jT m.store := by
  rw [removeFromBoth_store, setJob_store, hidT]

lemma rsj_get_ne {m : Manager} {jT : Job} {id : Nat} (p : Priority)
    (hidT : jT.id = id) {i : Nat} (hi : i ≠ id) :
    getStored (removeFromBoth (setJob m jT) id p) i = getStored m i := by
  show lookupStore i _ = _
  rw [rsj_store p hidT]
  exact lookupStore_update_ne hi

lemma rsj_get_self {m : Manager} {j jT : Job} {id : Nat} (p : Priority)
    (hidT : jT.id = id) (hst : getStored m id = some j) :
    getStored (removeFromBoth (setJob m jT) id p) id = some jT := by
  show lookupStore id _ = _
  rw [rsj_store p hidT, lookupStore_update_self,
    show lookupStore id m.store = some j from hst]
  rfl

lemma allCreated_after_terminal {m : Manager} {id : Nat} {jT : Job}
    (hC : allCreated m) (hidT : jT.id = id) (p : Priority) :
    allCreated (removeFromBoth (setJob m jT) id p) := by
  intro i hi j2 hj2
  rw [rsj_byId, mem_filter_ne] at hi
  rw [rsj_get_ne p hidT hi.2] at hj2
  exact hC i hi.1 j2 hj2

lemma cancel_unknown {m : Manager} {id : Nat} (h : id ∉ m.jobsById) :
    cancel m id = (m, .error (assertionFault "unknown job id")) := by
  rw [cancel, getById, if_neg h]

lemma cancel_found_spec {m : Manager} {id : Nat} {j : Job}
    (hI : Inv m) (hmem : id ∈ m.jobsById) (hst : getStored m id = some j) :
    cancel m id =
      (removeFromBoth (setJob m { j with state := .Cancelled, aborted := true })
         id j.priority, .ok ()) := by
  have hid : j.id = id := hI.keyed _ (lookupStore_mem hst)
  have hlive := (hI.idxState id hmem j hst).1
  have hne : ¬ j.state = .Cancelled := by
    rcases hlive with h | h <;> rw [h] <;> exact fun hh => JobState.noConfusion hh
  have hcanc : stateMachine j.state .Cancel = some .Cancelled := by
    rcases hlive with h | h <;> rw [h] <;> rfl
  rw [cancel, getById, if_pos hmem, hst]
  dsimp only
  rw [isCancelled_of_ne hne]
  dsimp only
  rw [transitionStateJob_eq hcanc]
  dsimp only
  rw [removeJob, if_pos (show isTerminalState ({ j with state := JobState.Cancelled } : Job).state = true from rfl)]
  dsimp only
  rw [show removeFromBoth (setJob m { j with state := JobState.Cancelled })
        ({ j with state := JobState.Cancelled } : Job).id
        ({ j with state := JobState.Cancelled } : Job).priority =
      removeFromBoth (setJob m { j with state := JobState.Cancelled }) id j.priority from by
    rw [show ({ j with state := JobState.Cancelled } : Job).id = id from hid]]
  rw [show assertJobRemoved
        (removeFromBoth (setJob m { j with state := JobState.Cancelled }) id j.priority)
        { j with state := JobState.Cancelled } = .ok () from by
    rw [show (removeFromBoth (setJob m { j with state := JobState.Cancelled }) id j.priority) =
        (removeFromBoth (setJob m { j with state := JobState.Cancelled })
          ({ j with state := JobState.Cancelled } : Job).id
          ({ j with state := JobState.Cancelled } : Job).priority) from by
      rw [show ({ j with state := JobState.Cancelled } : Job).id = id from hid]]
    exact assertJobRemoved_after _ _]
  dsimp only
  rw [setJob_removeFromBoth, setJob_setJob
    (a := { j with state := JobState.Cancelled })
    (b := { j with state := JobState.Cancelled, aborted := true }) rfl]



lemma backoffGo_fail_spec (fn : Callback) (es : Nat → Err)
    (hf : ∀ k, fn false k = some (es k)) (hb : ∀ k, (es k).name ≠ "AbortError")
    (base : ℚ) (jd : Nat → ℚ) :
    ∀ remaining attempt sleeps, sleeps.length = attempt →
      backoffGo fn false base jd remaining attempt attempt sleeps =
        (.error (es (attempt + max 1 remaining - 1)), attempt + max 1 remaining,
         sleeps ++ (List.range (max 1 remaining - 1)).map
           (fun t => retryDelay base jd (attempt + t))) := by
  intro remaining
  induction remaining using Nat.strong_induction_on with
  | _ remaining ih =>
    intro attempt sleeps hlen
    match remaining with
    | 0 =>
      rw [backoffGo]
      simp [backoffTry, hf attempt, hb attempt]
    | 1 =>
      rw [backoffGo]
      simp [backoffTry, hf attempt, hb attempt]
    | (r + 2) =>
      rw [backoffGo]
      simp only [backoffTry, if_false, Bool.false_eq_true, ite_false, hf attempt]
      rw [if_neg (hb attempt)]
      rw [ih (r + 1) (by omega) (attempt + 1) _ (by simp [hlen])]
      simp only [hlen, Prod.mk.injEq]
      refine ⟨by congr 2; omega, by omega, ?_⟩
      rw [List.append_assoc]
      congr 1
      have hmax1 : max 1 (r + 1) = r + 1 := by omega
      have hmax2 : max 1 (r + 2) = r + 2 := by omega
      rw [hmax1, hmax2]
      simp only [Nat.add_sub_cancel]
      have hr : r + 2 - 1 = r + 1 := rfl
      rw [hr, List.range_succ_eq_map]
      simp only [List.map_cons, List.map_map, List.singleton_append]
      congr 1
      refine List.map_congr_left fun a _ => ?_
      simp only [Function.comp_apply, retryDelay]
      have h1 : attempt + 1 + a = attempt + (a + 1) := by omega
      rw [h1]

lemma withExponentialBackoff_fail (fn : Callback) (es : Nat → Err)
    (hf : ∀ k, fn false k = some (es k)) (hb : ∀ k, (es k).name ≠ "AbortError")
    (mf : Nat) (base : ℚ) (jd : Nat → ℚ) :
    withExponentialBackoff fn false mf base jd =
      (.error (es (max 1 mf - 1)), max 1 mf,
       (List.range (mf - 1)).map (retryDelay base jd)) := by
  have h := backoffGo_fail_spec fn es hf hb base jd mf 0 [] rfl
  rw [withExponentialBackoff, h]
  have h1 : max 1 mf - 1 = mf - 1 := by omega
  simp [h1]

lemma backoffGo_error_name (fn : Callback)
    (hben : ∀ k e, fn false k = some e → e.name ≠ "AbortError")
    (base : ℚ) (jd : Nat → ℚ) :
    ∀ remaining attempt inv sleeps e invF slF,
      backoffGo fn false base jd remaining attempt inv sleeps = (.error e, invF, slF) →
      e.name ≠ "AbortError" := by
  intro remaining
  induction remaining using Nat.strong_induction_on with
  | _ remaining ih =>
    intro attempt inv sleeps e invF slF hrun
    match remaining with
    | 0 =>
      rw [backoffGo, backoffTry] at hrun
      simp only [Bool.false_eq_true, if_false, ite_false] at hrun
      rcases hfn : fn false inv with _ | e2 <;> rw [hfn] at hrun <;> simp at hrun
      obtain ⟨he, -⟩ := hrun
      subst he
      exact hben _ _ hfn
    | 1 =>
      rw [backoffGo, backoffTry] at hrun
      simp only [Bool.false_eq_true, if_false, ite_false] at hrun
      rcases hfn : fn false inv with _ | e2 <;> rw [hfn] at hrun <;> simp at hrun
      obtain ⟨he, -⟩ := hrun
      subst he
      exact hben _ _ hfn
    | (r + 2) =>
      rw [backoffGo, backoffTry] at hrun
      simp only [Bool.false_eq_true, if_false, ite_false] at hrun
      rcases hfn : fn false inv with _ | e2 <;> rw [hfn] at hrun <;> dsimp only at hrun
      · simp at hrun
      by_cases hn : e2.name = "AbortError"
      · rw [if_pos hn] at hrun
        simp at hrun
        obtain ⟨he, -⟩ := hrun
        subst he
        exact hben _ _ hfn
      · rw [if_neg hn] at hrun
        exact ih (r + 1) (by omega) _ _ _ _ _ _ hrun

lemma retryDelay_lt {k : Nat} (base : ℚ) (hb : 0 < base) (jd : Nat → ℚ)
    (h0 : 0 ≤ jd (k + 1)) (h1 : jd k < 1) :
    retryDelay base jd k < retryDelay base jd (k + 1) := by
  simp only [retryDelay]
  have hb2 : 0 < base / 2 := by positivity
  have hp : (1 : ℚ) ≤ 2 ^ (k + 1) := one_le_pow₀ (by norm_num)
  have hps : (2 : ℚ) ^ (k + 1 + 1) = 2 ^ (k + 1) * 2 := pow_succ 2 (k + 1)
  nlinarith [hp, hb2, h0, h1]

lemma chain_lt_of_adjacent {f : Nat → ℚ} (h : ∀ k, f k < f (k + 1)) (n : Nat) :
    List.Chain' (fun a b => a < b) ((List.range n).map f) := by
  rw [List.chain'_iff_get]
  intro i hi
  simp only [List.get_eq_getElem, List.getElem_map, List.getElem_range]
  exact h i



lemma not_mem_tier_ne {m : Manager} {id : Nat} {j : Job} (hI : Inv m)
    (hst : getStored m id = some j) {q : Priority} (hq : q ≠ j.priority) :
    id ∉ m.tier q :=
  fun hmem => hq (hI.tierPrio q id hmem j hst).symm

lemma withExponentialBackoff_alwaysFails {fn : Callback} (haf : alwaysFails fn)
    (hbn : benign fn) (mf : Nat) (base : ℚ) (jd : Nat → ℚ) :
    ∃ e, withExponentialBackoff fn false mf base jd =
        (.error e, max 1 mf, (List.range (mf - 1)).map (retryDelay base jd)) ∧
      ¬ e.name = "AbortError" := by
  have hf : ∀ k, fn false k = some ((fn false k).get (haf k)) :=
    fun k => (Option.some_get (haf k)).symm
  have hb : ∀ k, ((fn false k).get (haf k)).name ≠ "AbortError" :=
    fun k => hbn false k _ (hf k)
  exact ⟨_, withExponentialBackoff_fail fn _ hf hb mf base jd, hb _⟩



lemma withExponentialBackoff_error_name {fn : Callback} (hbn : benign fn)
    {mf : Nat} {base : ℚ} {jd : Nat → ℚ} {e : Err} {inv : Nat} {sl : List ℚ}
    (h : withExponentialBackoff fn false mf base jd = (.error e, inv, sl)) :
    ¬ e.name = "AbortError" :=
  backoffGo_error_name fn (fun k e2 he2 => hbn false k e2 he2) base jd mf 0 0 [] e inv sl h

lemma runTierGo_spec (mf : Nat) (base : ℚ) (jd : Nat → ℚ) (p : Priority) :
    ∀ (ids : List Nat) (m : Manager), Inv m → ids.Nodup →
      (∀ i ∈ ids, i ∈ m.tier p) →
      (∀ i ∈ ids, ∀ j, getStored m i = some j → j.state = .Created ∧ j.aborted = false) →
      Inv (runTierGo mf base jd m ids).1 ∧
      (runTierGo mf base jd m ids).1.nextId = m.nextId ∧
      (∀ i, i ∉ ids → getStored (runTierGo mf base jd m ids).1 i = getStored m i) ∧
      (∀ q, q ≠ p → (runTierGo mf base jd m ids).1.tier q = m.tier q) ∧
      (∀ i, i ∉ ids → (i ∈ (runTierGo mf base jd m ids).1.jobsById ↔ i ∈ m.jobsById) ∧
        (i ∈ (runTierGo mf base jd m ids).1.tier p ↔ i ∈ m.tier p)) ∧
      (∀ e ∈ (runTierGo mf base jd m ids).2.1, e ∈ ids) ∧
      ((runTierGo mf base jd m ids).2.2 = .ok () → ∀ i ∈ ids,
        i ∉ (runTierGo mf base jd m ids).1.jobsById ∧
        (∀ q, i ∉ (runTierGo mf base jd m ids).1.tier q) ∧
        (∀ j, getStored (runTierGo mf base jd m ids).1 i = some j →
          isTerminalState j.state = true)) ∧
      ((∀ i ∈ ids, ∀ j, getStored m i = some j → benign j.fn) →
        (runTierGo mf base jd m ids).2.2 = .ok ()) ∧
      (∀ i ∈ ids, ∀ j, getStored m i = some j → benign j.fn → alwaysFails j.fn →
        ∀ j2, getStored (runTierGo mf base jd m ids).1 i = some j2 →
          j2.state = .Failed) := by
  intro ids
  induction ids with
  | nil =>
    intro m hI _ _ _
    rw [runTierGo]
    refine ⟨hI, rfl, fun i _ => rfl, fun q _ => rfl, fun i _ => ⟨Iff.rfl, Iff.rfl⟩,
      ?_, ?_, fun _ => rfl, ?_⟩
    · intro e he
      exact absurd he (List.not_mem_nil e)
    · intro _ i hi
      exact absurd hi (List.not_mem_nil i)
    · intro i hi
      exact absurd hi (List.not_mem_nil i)
  | cons id rest ih =>
    intro m hI hnd hin hready
    have hidIn : id ∈ m.tier p := hin id (List.mem_cons_self id rest)
    have hmemBy : id ∈ m.jobsById := hI.tierById p id hidIn
    obtain ⟨j, hst⟩ : ∃ j, getStored m id = some j := by
      rcases hj : getStored m id with _ | j
      · have := hI.byIdStored id hmemBy
        rw [hj] at this
        exact Bool.noConfusion this
      · exact ⟨j, rfl⟩
    have hid : j.id = id := hI.keyed _ (lookupStore_mem hst)
    obtain ⟨hC, hA⟩ := hready id (List.mem_cons_self id rest) j hst
    have hprio : j.priority = p := hI.tierPrio p id hidIn j hst
    obtain ⟨hidNotRest, hndRest⟩ := List.nodup_cons.mp hnd
    have hRestNe : ∀ i ∈ rest, i ≠ id := fun i hi hEq => hidNotRest (hEq ▸ hi)
    rcases hex : withExponentialBackoff j.fn false mf base jd with ⟨res, inv, sl⟩
    cases res with
    | ok u =>
      cases u
      have hJob := runJobOne_ok_case hst hid hC hA hex
      have hInvN : Inv (removeFromBoth (setJob m { j with state := JobState.Completed }) id j.priority) :=
        Inv_after_terminal hI hst hmemBy hid rfl rfl
      have hNnext := rsj_nextId m { j with state := JobState.Completed } id j.priority
      have hNget_ne : ∀ i, i ≠ id →
          getStored (removeFromBoth (setJob m { j with state := JobState.Completed }) id j.priority) i
            = getStored m i := fun i hi =>
        @rsj_get_ne m { j with state := JobState.Completed } id j.priority hid i hi
      have hNget_self :=
        @rsj_get_self m j { j with state := JobState.Completed } id j.priority hid hst
      have hNbyid := rsj_byId m { j with state := JobState.Completed } id j.priority
      have hNtier := rsj_tier m { j with state := JobState.Completed } id j.priority
      have hinR : ∀ i ∈ rest,
          i ∈ (removeFromBoth (setJob m { j with state := JobState.Completed }) id j.priority).tier p := by
        intro i hi
        rw [hNtier, if_pos hprio.symm, hprio, mem_filter_ne]
        exact ⟨hin i (List.mem_cons_of_mem _ hi), hRestNe i hi⟩
      have hreadyR : ∀ i ∈ rest, ∀ j2,
          getStored (removeFromBoth (setJob m { j with state := JobState.Completed }) id j.priority) i
            = some j2 → j2.state = .Created ∧ j2.aborted = false := by
        intro i hi j2 hj2
        rw [hNget_ne i (hRestNe i hi)] at hj2
        exact hready i (List.mem_cons_of_mem _ hi) j2 hj2
      have hIH := ih _ hInvN hndRest hinR hreadyR
      rcases hrest : runTierGo mf base jd
        (removeFromBoth (setJob m { j with state := JobState.Completed }) id j.priority) rest
        with ⟨m2, tr2, r2⟩
      rw [hrest] at hIH
      dsimp only at hIH
      obtain ⟨ih1, ih2, ih3, ih4, ih5, ih6, ih7, ih8, ih9⟩ := hIH
      have hrun : runTierGo mf base jd m (id :: rest) =
          (m2, List.replicate inv id ++ tr2, r2) := by
        rw [runTierGo, hJob]
        dsimp only
        rw [hrest]
      rw [hrun]
      dsimp only
      have hbyidN : ∀ i, i ≠ id →
          (i ∈ (removeFromBoth (setJob m { j with state := JobState.Completed }) id j.priority).jobsById
            ↔ i ∈ m.jobsById) := by
        intro i hi
        rw [hNbyid, mem_filter_ne]
        exact ⟨fun h => h.1, fun h => ⟨h, hi⟩⟩
      have htierN : ∀ i, i ≠ id →
          (i ∈ (removeFromBoth (setJob m { j with state := JobState.Completed }) id j.priority).tier p
            ↔ i ∈ m.tier p) := by
        intro i hi
        rw [hNtier, if_pos hprio.symm, hprio, mem_filter_ne]
        exact ⟨fun h => h.1, fun h => ⟨h, hi⟩⟩
      refine ⟨ih1, ih2.trans hNnext, ?_, ?_, ?_, ?_, ?_, ?_, ?_⟩
      · intro i hi
        rw [List.mem_cons, not_or] at hi
        exact (ih3 i hi.2).trans (hNget_ne i hi.1)
      · intro q hq
        rw [ih4 q hq, hNtier, if_neg (fun hEq => hq (hEq.trans hprio))]
      · intro i hi
        rw [List.mem_cons, not_or] at hi
        exact ⟨(ih5 i hi.2).1.trans (hbyidN i hi.1), (ih5 i hi.2).2.trans (htierN i hi.1)⟩
      · intro e he
        rcases List.mem_append.mp he with h1 | h1
        · rw [List.eq_of_mem_replicate h1]
          exact List.mem_cons_self id rest
        · exact List.mem_cons_of_mem _ (ih6 e h1)
      · intro hok i hi
        rcases List.mem_cons.mp hi with hEq | hiR
        · subst hEq
          refine ⟨?_, ?_, ?_⟩
          · intro hmem
            have h1 := (ih5 i hidNotRest).1.mp hmem
            rw [hNbyid] at h1
            exact not_mem_filter_self h1
          · intro q
            by_cases hq : q = p
            · subst hq
              intro hmem
              have h1 := (ih5 i hidNotRest).2.mp hmem
              rw [hNtier, if_pos hprio.symm] at h1
              exact not_mem_filter_self h1
            · rw [ih4 q hq, hNtier, if_neg (fun hEq => hq (hEq.trans hprio))]
              exact not_mem_tier_ne hI hst (fun hEq => hq (hEq.trans hprio))
          · intro j2 hj2
            rw [ih3 i hidNotRest, hNget_self] at hj2
            obtain rfl := Option.some.injEq .. ▸ hj2
            rfl
        · exact ih7 hok i hiR
      · intro hben
        refine ih8 ?_
        intro i hi j2 hj2
        rw [hNget_ne i (hRestNe i hi)] at hj2
        exact hben i (List.mem_cons_of_mem _ hi) j2 hj2
      · intro i hi j2 hj2 hbn haf j3 hj3
        rcases List.mem_cons.mp hi with hEq | hiR
        · subst hEq
          rw [hst] at hj2
          obtain rfl := Option.some.injEq .. ▸ hj2
          obtain ⟨e2, he2, -⟩ := withExponentialBackoff_alwaysFails haf hbn mf base jd
          rw [hex] at he2
          obtain ⟨he3, -⟩ := Prod.mk.injEq .. ▸ he2
          exact Except.noConfusion he3
        · rw [← hNget_ne i (hRestNe i hiR)] at hj2
          exact ih9 i hiR j2 hj2 hbn haf j3 hj3
    | error e =>
      by_cases hn : e.name = "AbortError"
      · have hJob := runJobOne_abortName_case hst hid hC hA hex hn
        have hInvN : Inv (setJob m { j with state := JobState.Processing }) :=
          Inv_setJob_live hI hst hmemBy hid rfl (Or.inr rfl) hA
        have hNnext := setJob_nextId m { j with state := JobState.Processing }
        have hNget_ne : ∀ i, i ≠ id →
            getStored (setJob m { j with state := JobState.Processing }) i = getStored m i := by
          intro i hi
          refine getStored_setJob_ne m _ ?_
          show i ≠ ({ j with state := JobState.Processing } : Job).id
          rw [show ({ j with state := JobState.Processing } : Job).id = j.id from rfl, hid]
          exact hi
        have hinR : ∀ i ∈ rest,
            i ∈ (setJob m { j with state := JobState.Processing }).tier p := by
          intro i hi
          rw [setJob_tier]
          exact hin i (List.mem_cons_of_mem _ hi)
        have hreadyR : ∀ i ∈ rest, ∀ j2,
            getStored (setJob m { j with state := JobState.Processing }) i = some j2 →
              j2.state = .Created ∧ j2.aborted = false := by
          intro i hi j2 hj2
          rw [hNget_ne i (hRestNe i hi)] at hj2
          exact hready i (List.mem_cons_of_mem _ hi) j2 hj2
        have hIH := ih _ hInvN hndRest hinR hreadyR
        rcases hrest : runTierGo mf base jd
          (setJob m { j with state := JobState.Processing }) rest with ⟨m2, tr2, r2⟩
        rw [hrest] at hIH
        dsimp only at hIH
        obtain ⟨ih1, ih2, ih3, ih4, ih5, ih6, ih7, ih8, ih9⟩ := hIH
        have hrun : runTierGo mf base jd m (id :: rest) =
            (m2, List.replicate inv id ++ tr2,
             .error (assertionFault "unexpected terminal state")) := by
          rw [runTierGo, hJob]
          dsimp only
          rw [hrest]
        rw [hrun]
        dsimp only
        have hbenC : (∀ i ∈ id :: rest, ∀ j2, getStored m i = some j2 → benign j2.fn) → False := by
          intro hben
          have hbnj : benign j.fn := hben id (List.mem_cons_self id rest) j hst
          exact withExponentialBackoff_error_name hbnj hex hn
        refine ⟨ih1, ih2.trans hNnext, ?_, ?_, ?_, ?_, ?_, ?_, ?_⟩
        · intro i hi
          rw [List.mem_cons, not_or] at hi
          exact (ih3 i hi.2).trans (hNget_ne i hi.1)
        · intro q hq
          rw [ih4 q hq, setJob_tier]
        · intro i hi
          rw [List.mem_cons, not_or] at hi
          refine ⟨(ih5 i hi.2).1.trans (by rw [setJob_byId]), (ih5 i hi.2).2.trans (by rw [setJob_tier])⟩
        · intro e2 he2
          rcases List.mem_append.mp he2 with h1 | h1
          · rw [List.eq_of_mem_replicate h1]
            exact List.mem_cons_self id rest
          · exact List.mem_cons_of_mem _ (ih6 e2 h1)
        · intro hok
          exact Except.noConfusion hok
        · intro hben
          exact absurd hben (fun h => hbenC h)
        · intro i hi j2 hj2 hbn haf j3 hj3
          rcases List.mem_cons.mp hi with hEq | hiR
          · subst hEq
            rw [hst] at hj2
            obtain rfl := Option.some.injEq .. ▸ hj2
            exact absurd hn (withExponentialBackoff_error_name hbn hex)
          · rw [← hNget_ne i (hRestNe i hiR)] at hj2
            exact ih9 i hiR j2 hj2 hbn haf j3 hj3
      · have hJob := runJobOne_fail_case hst hid hC hA hex hn
        have hInvN : Inv (removeFromBoth (setJob m { j with state := JobState.Failed }) id j.priority) :=
          Inv_after_terminal hI hst hmemBy hid rfl rfl
        have hNnext := rsj_nextId m { j with state := JobState.Failed } id j.priority
        have hNget_ne : ∀ i, i ≠ id →
            getStored (removeFromBoth (setJob m { j with state := JobState.Failed }) id j.priority) i
              = getStored m i := fun i hi =>
          @rsj_get_ne m { j with state := JobState.Failed } id j.priority hid i hi
        have hNget_self :=
          @rsj_get_self m j { j with state := JobState.Failed } id j.priority hid hst
        have hNbyid := rsj_byId m { j with state := JobState.Failed } id j.priority
        have hNtier := rsj_tier m { j with state := JobState.Failed } id j.priority
        have hinR : ∀ i ∈ rest,
            i ∈ (removeFromBoth (setJob m { j with state := JobState.Failed }) id j.priority).tier p := by
          intro i hi
          rw [hNtier, if_pos hprio.symm, hprio, mem_filter_ne]
          exact ⟨hin i (List.mem_cons_of_mem _ hi), hRestNe i hi⟩
        have hreadyR : ∀ i ∈ rest, ∀ j2,
            getStored (removeFromBoth (setJob m { j with state := JobState.Failed }) id j.priority) i
              = some j2 → j2.state = .Created ∧ j2.aborted = false := by
          intro i hi j2 hj2
          rw [hNget_ne i (hRestNe i hi)] at hj2
          exact hready i (List.mem_cons_of_mem _ hi) j2 hj2
        have hIH := ih _ hInvN hndRest hinR hreadyR
        rcases hrest : runTierGo mf base jd
          (removeFromBoth (setJob m { j with state := JobState.Failed }) id j.priority) rest
          with ⟨m2, tr2, r2⟩
        rw [hrest] at hIH
        dsimp only at hIH
        obtain ⟨ih1, ih2, ih3, ih4, ih5, ih6, ih7, ih8, ih9⟩ := hIH
        have hrun : runTierGo mf base jd m (id :: rest) =
            (m2, List.replicate inv id ++ tr2, r2) := by
          rw [runTierGo, hJob]
          dsimp only
          rw [hrest]
        rw [hrun]
        dsimp only
        have hbyidN : ∀ i, i ≠ id →
            (i ∈ (removeFromBoth (setJob m { j with state := JobState.Failed }) id j.priority).jobsById
              ↔ i ∈ m.jobsById) := by
          intro i hi
          rw [hNbyid, mem_filter_ne]
          exact ⟨fun h => h.1, fun h => ⟨h, hi⟩⟩
        have htierN : ∀ i, i ≠ id →
            (i ∈ (removeFromBoth (setJob m { j with state := JobState.Failed }) id j.priority).tier p
              ↔ i ∈ m.tier p) := by
          intro i hi
          rw [hNtier, if_pos hprio.symm, hprio, mem_filter_ne]
          exact ⟨fun h => h.1, fun h => ⟨h, hi⟩⟩
        refine ⟨ih1, ih2.trans hNnext, ?_, ?_, ?_, ?_, ?_, ?_, ?_⟩
        · intro i hi
          rw [List.mem_cons, not_or] at hi
          exact (ih3 i hi.2).trans (hNget_ne i hi.1)
        · intro q hq
          rw [ih4 q hq, hNtier, if_neg (fun hEq => hq (hEq.trans hprio))]
        · intro i hi
          rw [List.mem_cons, not_or] at hi
          exact ⟨(ih5 i hi.2).1.trans (hbyidN i hi.1), (ih5 i hi.2).2.trans (htierN i hi.1)⟩
        · intro e2 he2
          rcases List.mem_append.mp he2 with h1 | h1
          · rw [List.eq_of_mem_replicate h1]
            exact List.mem_cons_self id rest
          · exact List.mem_cons_of_mem _ (ih6 e2 h1)
        · intro hok i hi
          rcases List.mem_cons.mp hi with hEq | hiR
          · subst hEq
            refine ⟨?_, ?_, ?_⟩
            · intro hmem
              have h1 := (ih5 i hidNotRest).1.mp hmem
              rw [hNbyid] at h1
              exact not_mem_filter_self h1
            · intro q
              by_cases hq : q = p
              · subst hq
                intro hmem
                have h1 := (ih5 i hidNotRest).2.mp hmem
                rw [hNtier, if_pos hprio.symm] at h1
                exact not_mem_filter_self h1
              · rw [ih4 q hq, hNtier, if_neg (fun hEq => hq (hEq.trans hprio))]
                exact not_mem_tier_ne hI hst (fun hEq => hq (hEq.trans hprio))
            · intro j2 hj2
              rw [ih3 i hidNotRest, hNget_self] at hj2
              obtain rfl := Option.some.injEq .. ▸ hj2
              rfl
          · exact ih7 hok i hiR
        · intro hben
          refine ih8 ?_
          intro i hi j2 hj2
          rw [hNget_ne i (hRestNe i hi)] at hj2
          exact hben i (List.mem_cons_of_mem _ hi) j2 hj2
        · intro i hi j2 hj2 hbn haf j3 hj3
          rcases List.mem_cons.mp hi with hEq | hiR
          · subst hEq
            rw [ih3 i hidNotRest, hNget_self] at hj3
            obtain rfl := Option.some.injEq .. ▸ hj3
            rfl
          · rw [← hNget_ne i (hRestNe i hiR)] at hj2
            exact ih9 i hiR j2 hj2 hbn haf j3 hj3



lemma runJobs_spec (mf : Nat) (jd : Nat → ℚ) (m : Manager)
    (hI : Inv m) (hAC : allCreated m) :
    Inv (runJobs mf jd m).1 ∧
    ((runJobs mf jd m).2.2 = .ok () → allCreated (runJobs mf jd m).1) ∧
    ((∀ i ∈ m.jobsById, ∀ j, getStored m i = some j → benign j.fn) →
      (runJobs mf jd m).2.2 = .ok ()) ∧
    ((∀ i ∈ m.jobsById, ∀ j, getStored m i = some j → benign j.fn) →
      ∀ i ∈ m.jobsById, ∀ j, getStored m i = some j → alwaysFails j.fn →
      ∀ j2, getStored (runJobs mf jd m).1 i = some j2 → j2.state = .Failed) ∧
    ((runJobs mf jd m).2.2 = .ok () → ∀ i ∈ m.jobsById,
      i ∉ (runJobs mf jd m).1.jobsById ∧
      ∀ j2, getStored (runJobs mf jd m).1 i = some j2 →
        isTerminalState j2.state = true) := by
  have hready : ∀ (mm : Manager), Inv mm → allCreated mm → ∀ (p : Priority),
      ∀ i ∈ mm.tier p, ∀ j, getStored mm i = some j →
        j.state = .Created ∧ j.aborted = false := by
    intro mm hImm hACmm p i hi j hj
    have hby := hImm.tierById p i hi
    exact ⟨hACmm i hby j hj, (hImm.idxState i hby j hj).2⟩
  rcases h1 : runTierGo mf 1000 jd m (m.tier Priority.high) with ⟨m1, t1, r1⟩
  have hs1 := runTierGo_spec mf 1000 jd .high (m.tier .high) m hI
    (hI.tierNodup .high) (fun i hi => hi) (hready m hI hAC .high)
  rw [h1] at hs1
  dsimp only at hs1
  obtain ⟨s11, s12, s13, s14, s15, s16, s17, s18, s19⟩ := hs1
  cases r1 with
  | error e =>
    have hrj : runJobs mf jd m = (m1, t1, .error e) := by
      rw [runJobs, runTier, h1]
    rw [hrj]
    dsimp only
    have hbenFalse : (∀ i ∈ m.jobsById, ∀ j, getStored m i = some j → benign j.fn) →
        False := by
      intro hben
      have := s18 (fun i hi j hj => hben i (hI.tierById _ i hi) j hj)
      exact Except.noConfusion this
    refine ⟨s11, ?_, ?_, ?_, ?_⟩
    · intro hok
      exact Except.noConfusion hok
    · intro hben
      exact absurd (hbenFalse hben) (fun h => h)
    · intro hben
      exact absurd (hbenFalse hben) (fun h => h)
    · intro hok
      exact Except.noConfusion hok
  | ok u1 =>
    cases u1
    have hAC1 : allCreated m1 := by
      intro i hi j hj
      by_cases hids : i ∈ m.tier .high
      · exact absurd hi (s17 rfl i hids).1
      · rw [s13 i hids] at hj
        exact hAC i ((s15 i hids).1.mp hi) j hj
    have hT2 : m1.tier Priority.medium = m.tier Priority.medium :=
      s14 .medium (by intro hh; exact Priority.noConfusion hh)
    have hT3a : m1.tier Priority.low = m.tier Priority.low :=
      s14 .low (by intro hh; exact Priority.noConfusion hh)
    rcases h2 : runTierGo mf 1000 jd m1 (m1.tier Priority.medium) with ⟨m2, t2, r2⟩
    have hs2 := runTierGo_spec mf 1000 jd .medium (m1.tier .medium) m1 s11
      (s11.tierNodup .medium) (fun i hi => hi) (hready m1 s11 hAC1 .medium)
    rw [h2] at hs2
    dsimp only at hs2
    obtain ⟨s21, s22, s23, s24, s25, s26, s27, s28, s29⟩ := hs2
    have hmedOrig : ∀ i, i ∈ m1.tier Priority.medium ↔ i ∈ m.tier Priority.medium := by
      intro i
      rw [hT2]
    have hhigh_not_med : ∀ i ∈ m.tier Priority.high, i ∉ m1.tier Priority.medium := by
      intro i hi hmem
      rw [hT2] at hmem
      rcases hj : getStored m i with _ | j
      · have := hI.byIdStored i (hI.tierById _ i hi)
        rw [hj] at this
        exact Bool.noConfusion this
      · have hp1 := hI.tierPrio _ i hi j hj
        have hp2 := hI.tierPrio _ i hmem j hj
        rw [hp1] at hp2
        exact Priority.noConfusion hp2
    cases r2 with
    | error e =>
      have hrj : runJobs mf jd m = (m2, t1 ++ t2, .error e) := by
        rw [runJobs, runTier, h1]
        dsimp only
        rw [runTier, h2]
      rw [hrj]
      dsimp only
      have hbenFalse : (∀ i ∈ m.jobsById, ∀ j, getStored m i = some j → benign j.fn) →
          False := by
        intro hben
        have hben1 : ∀ i ∈ m1.tier Priority.medium, ∀ j, getStored m1 i = some j →
            benign j.fn := by
          intro i hi j hj
          have hio : i ∈ m.tier Priority.medium := (hmedOrig i).mp hi
          have hnotHigh : i ∉ m.tier Priority.high := by
            intro hmem
            exact hhigh_not_med i hmem hi
          rw [s13 i hnotHigh] at hj
          exact hben i (hI.tierById _ i hio) j hj
        exact Except.noConfusion (s28 hben1)
      refine ⟨s21, ?_, ?_, ?_, ?_⟩
      · intro hok
        exact Except.noConfusion hok
      · intro hben
        exact absurd (hbenFalse hben) (fun h => h)
      · intro hben
        exact absurd (hbenFalse hben) (fun h => h)
      · intro hok
        exact Except.noConfusion hok
    | ok u2 =>
      cases u2
      have hAC2 : allCreated m2 := by
        intro i hi j hj
        by_cases hids : i ∈ m1.tier .medium
        · exact absurd hi (s27 rfl i hids).1
        · rw [s23 i hids] at hj
          exact hAC1 i ((s25 i hids).1.mp hi) j hj
      have hT3b : m2.tier Priority.low = m.tier Priority.low := by
        rw [s24 .low (by intro hh; exact Priority.noConfusion hh), hT3a]
      rcases h3 : runTierGo mf 1000 jd m2 (m2.tier Priority.low) with ⟨m3, t3, r3⟩
      have hs3 := runTierGo_spec mf 1000 jd .low (m2.tier .low) m2 s21
        (s21.tierNodup .low) (fun i hi => hi) (hready m2 s21 hAC2 .low)
      rw [h3] at hs3
      dsimp only at hs3
      obtain ⟨s31, s32, s33, s34, s35, s36, s37, s38, s39⟩ := hs3
      have hrj : runJobs mf jd m = (m3, t1 ++ t2 ++ t3, r3) := by
        rw [runJobs, runTier, h1]
        dsimp only
        rw [runTier, h2]
        dsimp only
        rw [runTier, h3]
      rw [hrj]
      dsimp only
      -- facts about where an originally indexed job lives
      have hstored1 : ∀ i ∈ m.jobsById, ∀ j, getStored m i = some j →
          j.priority = Priority.medium ∨ j.priority = Priority.low →
          getStored m1 i = getStored m i := by
        intro i hi j hj hp
        refine s13 i ?_
        intro hmem
        have := hI.tierPrio _ i hmem j hj
        rcases hp with hp | hp <;> rw [hp] at this <;> exact Priority.noConfusion this
      have hstored2 : ∀ i ∈ m.jobsById, ∀ j, getStored m i = some j →
          j.priority = Priority.high ∨ j.priority = Priority.low →
          getStored m2 i = getStored m1 i := by
        intro i hi j hj hp
        refine s23 i ?_
        intro hmem
        rw [hT2] at hmem
        have := hI.tierPrio _ i hmem j hj
        rcases hp with hp | hp <;> rw [hp] at this <;> exact Priority.noConfusion this
      have hstored3 : ∀ i ∈ m.jobsById, ∀ j, getStored m i = some j →
          j.priority = Priority.high ∨ j.priority = Priority.medium →
          getStored m3 i = getStored m2 i := by
        intro i hi j hj hp
        refine s33 i ?_
        intro hmem
        rw [hT3b] at hmem
        have := hI.tierPrio _ i hmem j hj
        rcases hp with hp | hp <;> rw [hp] at this <;> exact Priority.noConfusion this
      have hAC3 : r3 = .ok () → allCreated m3 := by
        intro hok i hi j hj
        by_cases hids : i ∈ m2.tier .low
        · exact absurd hi (s37 hok i hids).1
        · rw [s33 i hids] at hj
          exact hAC2 i ((s35 i hids).1.mp hi) j hj
      refine ⟨s31, hAC3, ?_, ?_, ?_⟩
      · -- benign implies ok
        intro hben
        refine s38 ?_
        intro i hi j hj
        have hio : i ∈ m.tier Priority.low := by rw [← hT3b]; exact hi
        have hby : i ∈ m.jobsById := hI.tierById _ i hio
        rcases hjo : getStored m i with _ | jo
        · have := hI.byIdStored i hby
          rw [hjo] at this
          exact Bool.noConfusion this
        have hpo : jo.priority = Priority.low := hI.tierPrio _ i hio jo hjo
        have e1 : getStored m1 i = getStored m i :=
          hstored1 i hby jo hjo (Or.inr hpo)
        have e2 : getStored m2 i = getStored m1 i :=
          hstored2 i hby jo hjo (Or.inr hpo)
        rw [e2, e1, hjo] at hj
        have hjeq : jo = j := Option.some.injEq .. ▸ hj
        rw [← hjeq]
        exact hben i hby jo hjo
      · -- benign + alwaysFails implies Failed
        intro hben i hi j hj haf j2 hj2
        have hitier : i ∈ m.tier j.priority := hI.byIdTier i hi j hj
        have hbnj : benign j.fn := hben i hi j hj
        rcases hp : j.priority with _ | _ | _
        · -- low
          have e1 : getStored m1 i = getStored m i := hstored1 i hi j hj (Or.inr hp)
          have e2 : getStored m2 i = getStored m1 i := hstored2 i hi j hj (Or.inr hp)
          have hi2 : i ∈ m2.tier Priority.low := by
            rw [hT3b, ← hp]
            exact hitier
          refine s39 i hi2 j ?_ hbnj haf j2 hj2
          rw [e2, e1]
          exact hj
        · -- medium
          have e1 : getStored m1 i = getStored m i := hstored1 i hi j hj (Or.inl hp)
          have e3 : getStored m3 i = getStored m2 i := hstored3 i hi j hj (Or.inr hp)
          have hi1 : i ∈ m1.tier Priority.medium := by
            rw [hT2, ← hp]
            exact hitier
          rw [e3] at hj2
          refine s29 i hi1 j ?_ hbnj haf j2 hj2
          rw [e1]
          exact hj
        · -- high
          have e2 : getStored m2 i = getStored m1 i := hstored2 i hi j hj (Or.inl hp)
          have e3 : getStored m3 i = getStored m2 i := hstored3 i hi j hj (Or.inl hp)
          have hi0 : i ∈ m.tier Priority.high := by
            rw [← hp]
            exact hitier
          rw [e3, e2] at hj2
          exact s19 i hi0 j hj hbnj haf j2 hj2
      · -- ok implies removed and terminal
        intro hok i hi
        rcases hjo : getStored m i with _ | j
        · have := hI.byIdStored i hi
          rw [hjo] at this
          exact Bool.noConfusion this
        have hitier : i ∈ m.tier j.priority := hI.byIdTier i hi j hjo
        rcases hp : j.priority with _ | _ | _
        · -- low
          have e1 : getStored m1 i = getStored m i := hstored1 i hi j hjo (Or.inr hp)
          have e2 : getStored m2 i = getStored m1 i := hstored2 i hi j hjo (Or.inr hp)
          have hi2 : i ∈ m2.tier Priority.low := by
            rw [hT3b, ← hp]
            exact hitier
          obtain ⟨hrm, -, hterm⟩ := s37 hok i hi2
          exact ⟨hrm, hterm⟩
        · -- medium
          rw [hp] at hitier
          have hi1 : i ∈ m1.tier Priority.medium := by
            rw [hT2]
            exact hitier
          obtain ⟨hrm, htier, hterm⟩ := s27 rfl i hi1
          have hnotLow : i ∉ m2.tier Priority.low := htier .low
          refine ⟨?_, ?_⟩
          · intro hmem
            exact hrm ((s35 i hnotLow).1.mp hmem)
          · intro j2 hj2
            rw [s33 i hnotLow] at hj2
            exact hterm j2 hj2
        · -- high
          rw [hp] at hitier
          obtain ⟨hrm, htier, hterm⟩ := s17 rfl i hitier
          have hnotMed : i ∉ m1.tier Priority.medium := htier .medium
          have hnotLow2 : i ∉ m2.tier Priority.low := by
            rw [s24 .low (fun hh => Priority.noConfusion hh)]
            exact htier .low
          refine ⟨?_, ?_⟩
          · intro hmem
            have h5 := (s35 i hnotLow2).1.mp hmem
            exact hrm ((s25 i hnotMed).1.mp h5)
          · intro j2 hj2
            rw [s33 i hnotLow2, s23 i hnotMed] at hj2
            exact hterm j2 hj2



lemma lookupStore_of_mem {st : List (Nat × Job)} (hnd : (st.map Prod.fst).Nodup)
    {x : Nat × Job} (hx : x ∈ st) : lookupStore x.1 st = some x.2 := by
  induction st with
  | nil => exact absurd hx (List.not_mem_nil x)
  | cons y rest ih =>
    obtain ⟨k, o⟩ := y
    simp only [List.map_cons, List.nodup_cons] at hnd
    rcases List.mem_cons.mp hx with h1 | h1
    · subst h1
      rw [lookupStore, if_pos rfl]
    · have hk : k ≠ x.1 := by
        intro hEq
        exact hnd.1 (hEq ▸ List.mem_map.mpr ⟨x, h1, rfl⟩)
      rw [lookupStore, if_neg hk]
      exact ih hnd.2 h1

lemma Inv_dualIndex {m : Manager} (hI : Inv m) : dualIndexInv m := by
  intro x hx
  have hlook : getStored m x.1 = some x.2 := lookupStore_of_mem hI.keysNodup hx
  by_cases hby : x.1 ∈ m.jobsById
  · have htier := hI.byIdTier x.1 hby x.2 hlook
    have hstate := (hI.idxState x.1 hby x.2 hlook).1
    refine ⟨Or.inl ⟨hby, htier⟩, ?_⟩
    constructor
    · intro _
      rcases hstate with h | h <;> rw [h] <;> rfl
    · intro _
      exact ⟨hby, htier⟩
  · have hterm := hI.offTerminal x hx hby
    refine ⟨Or.inr ⟨hby, fun p hmem => hby (hI.tierById p x.1 hmem)⟩, ?_⟩
    constructor
    · intro h
      exact absurd h.1 hby
    · intro h
      rw [hterm] at h
      exact absurd h (fun hh => Bool.noConfusion hh)

lemma Inv_emptyManager : Inv emptyManager := by
  constructor <;>
    simp [emptyManager, Manager.tier, getStored, lookupStore] <;>
    intro p <;>
    cases p <;>
    simp

lemma allCreated_emptyManager : allCreated emptyManager := by
  intro i hi
  exact absurd hi (List.not_mem_nil i)

lemma Inv_cancel {m : Manager} (hI : Inv m) (id : Nat) : Inv (cancel m id).1 := by
  by_cases hby : id ∈ m.jobsById
  · rcases hj : getStored m id with _ | j
    · have := hI.byIdStored id hby
      rw [hj] at this
      exact Bool.noConfusion this
    · rw [cancel_found_spec hI hby hj]
      exact Inv_after_terminal hI hj hby (hI.keyed _ (lookupStore_mem hj)) rfl rfl
  · rw [cancel_unknown hby]
    exact hI

lemma allCreated_cancel {m : Manager} (hI : Inv m) (hAC : allCreated m) (id : Nat) :
    allCreated (cancel m id).1 := by
  by_cases hby : id ∈ m.jobsById
  · rcases hj : getStored m id with _ | j
    · have := hI.byIdStored id hby
      rw [hj] at this
      exact Bool.noConfusion this
    · rw [cancel_found_spec hI hby hj]
      exact @allCreated_after_terminal m id
        { j with state := JobState.Cancelled, aborted := true } hAC
        (show j.id = id from hI.keyed _ (lookupStore_mem hj)) j.priority
  · rw [cancel_unknown hby]
    exact hAC

end StateMachineRepo

namespace StateMachineRepo

/-- Claim C1: for every (state, action) pair listed in the transition table,
`transition` yields exactly the next state the table specifies; for every
pair not in the table it raises the fatal InvalidTransition fault; and in
particular Cancelled is absorbing: every one of the four actions maps it to
Cancelled. -/
theorem claim_C1 :
    (stateMachine .Created .Start = some .Processing ∧
     stateMachine .Created .Cancel = some .Cancelled ∧
     stateMachine .Processing .Complete = some .Completed ∧
     stateMachine .Processing .Cancel = some .Cancelled ∧
     stateMachine .Processing .Fail = some .Failed ∧
     stateMachine .Cancelled .Start = some .Cancelled ∧
     stateMachine .Cancelled .Complete = some .Cancelled ∧
     stateMachine .Cancelled .Cancel = some .Cancelled ∧
     stateMachine .Cancelled .Fail = some .Cancelled) ∧
    (stateMachine .Created .Complete = none ∧
     stateMachine .Created .Fail = none ∧
     stateMachine .Processing .Start = none ∧
     (∀ a, stateMachine .Completed a = none) ∧
     (∀ a, stateMachine .Failed a = none)) ∧
    (∀ a, stateMachine .Cancelled a = some .Cancelled) ∧
    (∀ (j : Job) (a : JobAction),
      transitionStateJob j a =
        match stateMachine j.state a with
        | some s2 => .ok { j with state := s2 }
        | none => .error (assertionFault "Invalid state transition")) :=
  ⟨⟨rfl, rfl, rfl, rfl, rfl, rfl, rfl, rfl, rfl⟩,
   ⟨rfl, rfl, rfl, fun a => by cases a <;> rfl, fun a => by cases a <;> rfl⟩,
   fun a => by cases a <;> rfl,
   fun j a => by rcases h : stateMachine j.state a with _ | s2 <;> simp [transitionStateJob, h]⟩

/-- Claim C5 (code bug): with the cancellation signal already set before any
attempt and maxAttempts 2, the executor never invokes the callback (0
invocations), but contrary to the claim it does NOT fail immediately with a
recognizable Cancelled fault: it performs one backoff sleep and then
re-raises an error whose `name` is "Error" (because `new Error("AbortError")`
only sets the message), which the manager's `e.name === "AbortError"` check
does not recognize. -/
theorem claim_C5 :
    (withExponentialBackoff okFn true 2 1000 zeroJitter).1 =
      .error { name := "Error", message := "AbortError" } ∧
    (withExponentialBackoff okFn true 2 1000 zeroJitter).2.1 = 0 ∧
    (withExponentialBackoff okFn true 2 1000 zeroJitter).2.2.length = 1 ∧
    (newError "AbortError").name ≠ "AbortError" :=
  ⟨rfl, rfl, rfl, by decide⟩

/-- Claim C6 (code bug): cancelling job 0 succeeds and leaves it Cancelled,
but a second `cancel` with the same id is NOT a no-op: the first removal
emptied `jobsById`, so the lookup fails and the "unknown job id" fault is
raised (the state is unchanged because the assert fires before any
mutation), contradicting the claim and the code's own `// Idempotent.`
comment. -/
theorem claim_C6 :
    (cancel mgrOne 0).2 = .ok () ∧
    (getStored (cancel mgrOne 0).1 0).map Job.state = some .Cancelled ∧
    (cancel (cancel mgrOne 0).1 0).2 = .error (assertionFault "unknown job id") ∧
    (cancel (cancel mgrOne 0).1 0).1 = (cancel mgrOne 0).1 :=
  ⟨rfl, rfl, rfl, rfl⟩

/-- Claim C7, counterexample: after a job completes, `cancel` raises the
"unknown job id" fault (the lookup fails because terminal jobs are removed
from the flat index), not the InvalidTransition fault the claim predicts. -/
theorem claim_C7_counterexample :
    (getStored mgrDone 0).map Job.state = some .Completed ∧
    (cancel mgrDone 0).2 = .error (assertionFault "unknown job id") ∧
    assertionFault "unknown job id" ≠ assertionFault "Invalid state transition" :=
  ⟨rfl, rfl, by decide⟩

/-- Claim C7, amended: calling `cancel` on a job in Completed or Failed
state raises the unknown-job-id fault (the job was deleted from the flat
index the moment it reached its terminal state), not InvalidTransition and
not a silent no-op; the manager state is unchanged. -/
theorem claim_C7 (m : Manager) (hI : Inv m) (id : Nat) (j : Job)
    (hst : getStored m id = some j)
    (hterm : j.state = .Completed ∨ j.state = .Failed) :
    cancel m id = (m, .error (assertionFault "unknown job id")) := by
  have hnot : id ∉ m.jobsById := by
    intro hmem
    have h := (hI.idxState id hmem j hst).1
    rcases hterm with h2 | h2 <;> rcases h with h3 | h3 <;>
      rw [h2] at h3 <;> exact JobState.noConfusion h3
  exact cancel_unknown hnot

theorem claim_C7_witness :
    cancel mgrDone 0 = (mgrDone, .error (assertionFault "unknown job id")) :=
  claim_C7 mgrDone
    (runJobs_spec 0 zeroJitter mgrOne
      (Inv_createJob Inv_emptyManager "job-1" okFn .high)
      (allCreated_createJob Inv_emptyManager allCreated_emptyManager "job-1" okFn .high)).1
    0
    { id := 0, name := "job-1", fn := okFn, priority := .high,
      state := .Completed, aborted := false }
    rfl (Or.inl rfl)

/-- Claim C10: under the manager's invariants a job object in a terminal
state (Completed, Failed or Cancelled) is never present in the flat id
index, so a subsequent `cancel` for its id fails the lookup and raises the
"unknown job id" fault without ever reaching the state machine's Cancel
transition check; the state is unchanged. -/
theorem claim_C10 (m : Manager) (hI : Inv m) (id : Nat) (j : Job)
    (hst : getStored m id = some j) (hterm : isTerminalState j.state = true) :
    id ∉ m.jobsById ∧
    cancel m id = (m, .error (assertionFault "unknown job id")) := by
  have hnot : id ∉ m.jobsById := by
    intro hmem
    have h := (hI.idxState id hmem j hst).1
    rcases h with h | h <;> rw [h] at hterm <;> exact absurd hterm (by decide)
  exact ⟨hnot, cancel_unknown hnot⟩

theorem claim_C10_witness :
    0 ∉ (cancel mgrOne 0).1.jobsById ∧
    cancel (cancel mgrOne 0).1 0 =
      ((cancel mgrOne 0).1, .error (assertionFault "unknown job id")) :=
  claim_C10 (cancel mgrOne 0).1
    (Inv_cancel (Inv_createJob Inv_emptyManager "job-1" okFn .high) 0) 0
    { id := 0, name := "job-1", fn := okFn, priority := .high,
      state := .Cancelled, aborted := true }
    rfl rfl

end StateMachineRepo

namespace StateMachineRepo

/-- Claim C3: from a well-formed manager state, every public operation
(createJob, cancel, runJobs) preserves the dual-index invariant: afterwards
every stored job object is in both the priority index and the flat index or
in neither, and it is in both exactly when its state is non-terminal.
`createJob` and `cancel` also preserve the full well-formedness used as the
inductive hypothesis, as does a `runJobs` pass that completes normally. -/
theorem claim_C3 (m : Manager) (hI : Inv m) (hAC : allCreated m) :
    (∀ nm fn p, Inv (createJob m nm fn p).2 ∧ allCreated (createJob m nm fn p).2 ∧
      dualIndexInv (createJob m nm fn p).2) ∧
    (∀ id, Inv (cancel m id).1 ∧ allCreated (cancel m id).1 ∧
      dualIndexInv (cancel m id).1) ∧
    (∀ mf jd, Inv (runJobs mf jd m).1 ∧ dualIndexInv (runJobs mf jd m).1 ∧
      ((runJobs mf jd m).2.2 = .ok () → allCreated (runJobs mf jd m).1)) := by
  refine ⟨?_, ?_, ?_⟩
  · intro nm fn p
    have h := Inv_createJob hI nm fn p
    exact ⟨h, allCreated_createJob hI hAC nm fn p, Inv_dualIndex h⟩
  · intro id
    have h := Inv_cancel hI id
    exact ⟨h, allCreated_cancel hI hAC id, Inv_dualIndex h⟩
  · intro mf jd
    obtain ⟨h1, h2, -, -, -⟩ := runJobs_spec mf jd m hI hAC
    exact ⟨h1, Inv_dualIndex h1, h2⟩

theorem claim_C3_witness :
    dualIndexInv (createJob emptyManager "w" okFn .high).2 ∧
    dualIndexInv (cancel (createJob emptyManager "w" okFn .high).2 0).1 :=
  ⟨((claim_C3 emptyManager Inv_emptyManager allCreated_emptyManager).1 "w" okFn .high).2.2,
   ((claim_C3 (createJob emptyManager "w" okFn .high).2
      (Inv_createJob Inv_emptyManager "w" okFn .high)
      (allCreated_createJob Inv_emptyManager allCreated_emptyManager "w" okFn .high)).2.1
      0).2.2⟩

/-- Claim C9: the retry executor's sleeps are exactly the delays
`2 ^ attempt * (baseDelay / 2) + jitter` where the jitter term (the random
draw scaled by `baseDelay / 2`) lies in `[0, baseDelay / 2)`, and for every
draw of jitter values (each `Math.random()` result in `[0, 1)`) the
successive inter-attempt delays are strictly increasing. -/
theorem claim_C9 (fn : Callback) (es : Nat → Err)
    (hf : ∀ k, fn false k = some (es k)) (hb : ∀ k, (es k).name ≠ "AbortError")
    (mf : Nat) (base : ℚ) (hbase : 0 < base) (jd : Nat → ℚ)
    (hjd : ∀ k, 0 ≤ jd k ∧ jd k < 1) :
    (withExponentialBackoff fn false mf base jd).2.2 =
      (List.range (mf - 1)).map (retryDelay base jd) ∧
    (∀ k, retryDelay base jd k = 2 ^ (k + 1) * (base / 2) + jd k * (base / 2) ∧
      0 ≤ jd k * (base / 2) ∧ jd k * (base / 2) < base / 2) ∧
    List.Chain' (fun a b => a < b) (withExponentialBackoff fn false mf base jd).2.2 := by
  have hrun := withExponentialBackoff_fail fn es hf hb mf base jd
  have hsl : (withExponentialBackoff fn false mf base jd).2.2 =
      (List.range (mf - 1)).map (retryDelay base jd) := by rw [hrun]
  have hb2 : 0 < base / 2 := by positivity
  refine ⟨hsl, ?_, ?_⟩
  · intro k
    refine ⟨rfl, mul_nonneg (hjd k).1 hb2.le, ?_⟩
    calc jd k * (base / 2) < 1 * (base / 2) :=
          mul_lt_mul_of_pos_right (hjd k).2 hb2
      _ = base / 2 := one_mul _
  · rw [hsl]
    exact chain_lt_of_adjacent
      (fun k => retryDelay_lt (k := k) base hbase jd (hjd (k + 1)).1 (hjd k).2) _

theorem claim_C9_witness :
    List.Chain' (fun a b => a < b)
      (withExponentialBackoff testFailFn false 4 2 zeroJitter).2.2 := by
  have hb : ∀ k, ((fun (_ : Nat) => newError "TestError") k).name ≠ "AbortError" := by
    intro k
    show (newError "TestError").name ≠ "AbortError"
    decide
  exact (claim_C9 testFailFn (fun _ => newError "TestError") (fun _ => rfl)
    hb 4 2 two_pos zeroJitter (fun _ => ⟨le_refl 0, zero_lt_one⟩)).2.2

/-- Claim C8: from a well-formed manager state whose callbacks only raise
ordinary (non-cancellation) faults, `runJobs` completes normally — no job
failure is propagated to the caller — and every indexed job whose callback
fails on every invocation ends in the Failed terminal state. -/
theorem claim_C8 (m : Manager) (hI : Inv m) (hAC : allCreated m) (mf : Nat)
    (jd : Nat → ℚ)
    (hben : ∀ i ∈ m.jobsById, ∀ j, getStored m i = some j → benign j.fn) :
    (runJobs mf jd m).2.2 = .ok () ∧
    (∀ i ∈ m.jobsById, ∀ j, getStored m i = some j → alwaysFails j.fn →
      ∀ j2, getStored (runJobs mf jd m).1 i = some j2 → j2.state = .Failed) := by
  obtain ⟨-, -, h3, h4, -⟩ := runJobs_spec mf jd m hI hAC
  exact ⟨h3 hben, h4 hben⟩

theorem claim_C8_witness :
    (runJobs 2 zeroJitter mgrFail).2.2 = .ok () ∧
    ∀ j2, getStored (runJobs 2 zeroJitter mgrFail).1 0 = some j2 →
      j2.state = .Failed := by
  have hbenW : benign testFailFn := by
    intro b k e he
    have h2 : newError "TestError" = e := Option.some.injEq .. ▸ he
    rw [← h2]
    decide
  have hben : ∀ i ∈ mgrFail.jobsById, ∀ j, getStored mgrFail i = some j →
      benign j.fn := by
    intro i hi j hj
    have hi0 : i = 0 := List.mem_singleton.mp hi
    subst hi0
    have h3 : some (Job.mk 0 "fail-job" testFailFn .high .Created false) = some j := hj
    have h4 : Job.mk 0 "fail-job" testFailFn .high .Created false = j :=
      Option.some.injEq .. ▸ h3
    rw [← h4]
    exact hbenW
  have h := claim_C8 mgrFail
    (Inv_createJob Inv_emptyManager "fail-job" testFailFn .high)
    (allCreated_createJob Inv_emptyManager allCreated_emptyManager
      "fail-job" testFailFn .high)
    2 zeroJitter hben
  refine ⟨h.1, ?_⟩
  refine h.2 0 (List.mem_singleton.mpr rfl)
    (Job.mk 0 "fail-job" testFailFn .high .Created false) rfl ?_
  intro k
  rfl

end StateMachineRepo

namespace StateMachineRepo

/-- A `runJobs` pass over a manager whose medium and low tiers are empty is
just its high-tier pass. -/
lemma runJobs_only_high (mf : Nat) (jd : Nat → ℚ) (m : Manager) (mm : Manager)
    (t : List Nat)
    (h1 : runTierGo mf 1000 jd m (m.tier .high) = (mm, t, .ok ()))
    (hmed : mm.tier .medium = []) (hlow : mm.tier .low = []) :
    runJobs mf jd m = (mm, t, .ok ()) := by
  rw [runJobs, runTier, h1]
  dsimp only
  rw [runTier, hmed, runTierGo]
  dsimp only
  rw [runTier, hlow, runTierGo]
  simp

/-- Claim C2: the retry-exhaustion threshold is checked after incrementing
the attempt counter, so maxAttempts 0 and maxAttempts 1 behave identically
(the first failure is re-raised unchanged after a single invocation, with no
backoff sleep), at least one retry happens exactly when maxAttempts is at
least 2, and a job whose callback always fails, run with maxAttempts 2,
has its callback invoked exactly 2 times, after which the fault is re-raised
and the job ends in the Failed state while runJobs resolves normally. -/
theorem claim_C2 (fn : Callback) (es : Nat → Err)
    (hf : ∀ (b : Bool) (k : Nat), fn b k = some (es k))
    (hb : ∀ k, (es k).name ≠ "AbortError")
    (base : ℚ) (jd : Nat → ℚ) (nm : String) :
    (withExponentialBackoff fn false 0 base jd = (.error (es 0), 1, []) ∧
     withExponentialBackoff fn false 1 base jd = (.error (es 0), 1, []) ∧
     withExponentialBackoff fn false 0 base jd =
       withExponentialBackoff fn false 1 base jd) ∧
    (∀ mf, 2 ≤ (withExponentialBackoff fn false mf base jd).2.1 ↔ 2 ≤ mf) ∧
    ((withExponentialBackoff fn false 2 base jd).1 = .error (es 1) ∧
     (withExponentialBackoff fn false 2 base jd).2.1 = 2) ∧
    (runJobs 2 jd (createJob emptyManager nm fn .high).2).2.2 = .ok () ∧
    (runJobs 2 jd (createJob emptyManager nm fn .high).2).2.1 = [0, 0] ∧
    (∀ j2, getStored (runJobs 2 jd (createJob emptyManager nm fn .high).2).1 0 =
      some j2 → j2.state = .Failed) := by
  have hf0 : ∀ k, fn false k = some (es k) := hf false
  have h0 := withExponentialBackoff_fail fn es hf0 hb 0 base jd
  have h1 := withExponentialBackoff_fail fn es hf0 hb 1 base jd
  have h2 := withExponentialBackoff_fail fn es hf0 hb 2 base jd
  have hexec0 : withExponentialBackoff fn false 0 base jd = (.error (es 0), 1, []) := h0
  have hexec1 : withExponentialBackoff fn false 1 base jd = (.error (es 0), 1, []) := h1
  have hst0 : getStored (createJob emptyManager nm fn .high).2 0 =
      some (Job.mk 0 nm fn .high .Created false) := rfl
  have hJob := runJobOne_fail_case hst0 rfl rfl rfl
    (withExponentialBackoff_fail fn es hf0 hb 2 1000 jd) (hb _)
  have hTier : runTierGo 2 1000 jd (createJob emptyManager nm fn .high).2 [0] =
      (removeFromBoth
        (setJob (createJob emptyManager nm fn .high).2
          { Job.mk 0 nm fn .high .Created false with state := .Failed })
        0 (Job.mk 0 nm fn .high .Created false).priority,
       [0, 0], .ok ()) := by
    rw [runTierGo, hJob]
    dsimp only
    rw [runTierGo]
    rfl
  have hrj : runJobs 2 jd (createJob emptyManager nm fn .high).2 =
      (removeFromBoth
        (setJob (createJob emptyManager nm fn .high).2
          { Job.mk 0 nm fn .high .Created false with state := .Failed })
        0 (Job.mk 0 nm fn .high .Created false).priority,
       [0, 0], .ok ()) := by
    refine runJobs_only_high 2 jd _ _ _ ?_ rfl rfl
    rw [show (createJob emptyManager nm fn .high).2.tier .high = [0] from rfl]
    exact hTier
  refine ⟨⟨hexec0, hexec1, hexec0.trans hexec1.symm⟩, ?_,
    ⟨by rw [h2]; rfl, by rw [h2]; rfl⟩, by rw [hrj], by rw [hrj], ?_⟩
  · intro mf
    rw [withExponentialBackoff_fail fn es hf0 hb mf base jd]
    dsimp only
    omega
  · intro j2 hj2
    rw [hrj] at hj2
    have hself : getStored
        (removeFromBoth
          (setJob (createJob emptyManager nm fn .high).2
            { Job.mk 0 nm fn .high .Created false with state := .Failed })
          0 (Job.mk 0 nm fn .high .Created false).priority) 0 =
        some { Job.mk 0 nm fn .high .Created false with state := .Failed } :=
      rsj_get_self _ rfl rfl
    rw [hself] at hj2
    have h4 : ({ Job.mk 0 nm fn .high .Created false with state := .Failed } : Job) = j2 :=
      Option.some.injEq .. ▸ hj2
    rw [← h4]

theorem claim_C2_witness :
    (withExponentialBackoff testFailFn false 0 1000 zeroJitter =
      (.error (newError "TestError"), 1, []) ∧
     (withExponentialBackoff testFailFn false 2 1000 zeroJitter).2.1 = 2) ∧
    (runJobs 2 zeroJitter (createJob emptyManager "t" testFailFn .high).2).2.1 =
      [0, 0] := by
  have h := claim_C2 testFailFn (fun _ => newError "TestError")
    (fun _ _ => rfl) (fun k => by show (newError "TestError").name ≠ "AbortError"; decide)
    1000 zeroJitter "t"
  exact ⟨⟨h.1.1, h.2.2.1.2⟩, h.2.2.2.2.1⟩

end StateMachineRepo

namespace StateMachineRepo

/-- Claim C4: `runJobs` drains the tiers in the strict order high, medium,
low, and each tier is a full barrier.  The invocation trace is the
concatenation of a high-tier trace, a medium-tier trace and a low-tier
trace (each event belonging to a job of that priority); the medium and low
tiers produce no events unless the high tier's pass resolved, and the low
tier produces no events unless the medium tier's pass resolved.  At each
hand-over every job dispatched in the finished tier has reached a terminal
state and left both indices: the high tier's jobs when the high pass
resolves, the medium tier's jobs (the original medium-priority jobs, as the
tier-list equalities state) when the medium pass resolves, and the low
tier's jobs when the low pass resolves.  In the concrete two-job scenario
the high-priority job's side effect (trace position 0) occurs strictly
before the low-priority job's (trace position 1). -/
theorem claim_C4 (m : Manager) (hI : Inv m) (hAC : allCreated m) (mf : Nat)
    (jd : Nat → ℚ) :
    (∃ t1 t2 t3,
      (runJobs mf jd m).2.1 = t1 ++ t2 ++ t3 ∧
      t1 = (runTier mf 1000 jd m .high).2.1 ∧
      (∀ e ∈ t1, ∃ j, getStored m e = some j ∧ j.priority = .high) ∧
      (∀ e ∈ t2, ∃ j, getStored m e = some j ∧ j.priority = .medium) ∧
      (∀ e ∈ t3, ∃ j, getStored m e = some j ∧ j.priority = .low) ∧
      ((runTier mf 1000 jd m .high).2.2 ≠ .ok () → t2 = [] ∧ t3 = []) ∧
      ((runTier mf 1000 jd m .high).2.2 = .ok () →
        t2 = (runTier mf 1000 jd (afterHigh mf jd m) .medium).2.1 ∧
        ((runTier mf 1000 jd (afterHigh mf jd m) .medium).2.2 = .ok () →
          t3 = (runTier mf 1000 jd (afterMedium mf jd m) .low).2.1)) ∧
      ((runTier mf 1000 jd (afterHigh mf jd m) .medium).2.2 ≠ .ok () →
        t3 = [])) ∧
    ((runTier mf 1000 jd m .high).2.2 = .ok () → ∀ i ∈ m.tier .high,
      i ∉ (runTier mf 1000 jd m .high).1.jobsById ∧
      (∀ q, i ∉ (runTier mf 1000 jd m .high).1.tier q) ∧
      (∀ j2, getStored (runTier mf 1000 jd m .high).1 i = some j2 →
        isTerminalState j2.state = true)) ∧
    ((afterHigh mf jd m).tier .medium = m.tier .medium ∧
     (afterMedium mf jd m).tier .low = m.tier .low) ∧
    ((runTier mf 1000 jd (afterHigh mf jd m) .medium).2.2 = .ok () →
      ∀ i ∈ (afterHigh mf jd m).tier .medium,
      i ∉ (runTier mf 1000 jd (afterHigh mf jd m) .medium).1.jobsById ∧
      (∀ q, i ∉ (runTier mf 1000 jd (afterHigh mf jd m) .medium).1.tier q) ∧
      (∀ j2, getStored (runTier mf 1000 jd (afterHigh mf jd m) .medium).1 i =
          some j2 → isTerminalState j2.state = true)) ∧
    ((runTier mf 1000 jd (afterMedium mf jd m) .low).2.2 = .ok () →
      ∀ i ∈ (afterMedium mf jd m).tier .low,
      i ∉ (runTier mf 1000 jd (afterMedium mf jd m) .low).1.jobsById ∧
      (∀ q, i ∉ (runTier mf 1000 jd (afterMedium mf jd m) .low).1.tier q) ∧
      (∀ j2, getStored (runTier mf 1000 jd (afterMedium mf jd m) .low).1 i =
          some j2 → isTerminalState j2.state = true)) ∧
    ((runJobs 2 zeroJitter mgrHiLo).2.1 = [0, 1] ∧
     (getStored mgrHiLo 0).map Job.priority = some .high ∧
     (getStored mgrHiLo 1).map Job.priority = some .low) := by
  have hready : ∀ (mm : Manager), Inv mm → allCreated mm → ∀ (p : Priority),
      ∀ i ∈ mm.tier p, ∀ j, getStored mm i = some j →
        j.state = .Created ∧ j.aborted = false := by
    intro mm hImm hACmm p i hi j hj
    have hby := hImm.tierById p i hi
    exact ⟨hACmm i hby j hj, (hImm.idxState i hby j hj).2⟩
  have hprioOf : ∀ (p : Priority), ∀ e2 ∈ m.tier p,
      ∃ j, getStored m e2 = some j ∧ j.priority = p := by
    intro p e2 he2
    have hby := hI.tierById p e2 he2
    rcases hj : getStored m e2 with _ | j
    · have hs := hI.byIdStored e2 hby
      rw [hj] at hs
      exact Bool.noConfusion hs
    · exact ⟨j, rfl, hI.tierPrio p e2 he2 j hj⟩
  rcases h1 : runTierGo mf 1000 jd m (m.tier Priority.high) with ⟨m1, t1, r1⟩
  have hRT1 : runTier mf 1000 jd m .high = (m1, t1, r1) := by
    rw [runTier]
    exact h1
  have hs1 := runTierGo_spec mf 1000 jd .high (m.tier .high) m hI
    (hI.tierNodup .high) (fun i hi => hi) (hready m hI hAC .high)
  rw [h1] at hs1
  dsimp only at hs1
  obtain ⟨s11, s12, s13, s14, s15, s16, s17, s18, s19⟩ := hs1
  have hAH : afterHigh mf jd m = m1 := by
    rw [afterHigh, hRT1]
  have htr1 : ∀ e2 ∈ t1, ∃ j, getStored m e2 = some j ∧ j.priority = .high :=
    fun e2 he2 => hprioOf .high e2 (s16 e2 he2)
  have hbarrier : (runTier mf 1000 jd m .high).2.2 = .ok () → ∀ i ∈ m.tier .high,
      i ∉ (runTier mf 1000 jd m .high).1.jobsById ∧
      (∀ q, i ∉ (runTier mf 1000 jd m .high).1.tier q) ∧
      (∀ j2, getStored (runTier mf 1000 jd m .high).1 i = some j2 →
        isTerminalState j2.state = true) := by
    rw [runTier, h1]
    intro hok i hi
    exact s17 hok i hi
  have hT2 : m1.tier Priority.medium = m.tier Priority.medium :=
    s14 .medium (fun hh => Priority.noConfusion hh)
  have hT3a : m1.tier Priority.low = m.tier Priority.low :=
    s14 .low (fun hh => Priority.noConfusion hh)
  have hreadyMed : ∀ i ∈ m1.tier Priority.medium, ∀ j, getStored m1 i = some j →
      j.state = .Created ∧ j.aborted = false := by
    intro i hi j hj
    rw [hT2] at hi
    have hnotHigh : i ∉ m.tier Priority.high := by
      intro hmem
      obtain ⟨j0, hj0, hp0⟩ := hprioOf .medium i hi
      have hp1 := hI.tierPrio .high i hmem j0 hj0
      rw [hp0] at hp1
      exact Priority.noConfusion hp1
    rw [s13 i hnotHigh] at hj
    exact hready m hI hAC .medium i hi j hj
  rcases h2 : runTierGo mf 1000 jd m1 (m1.tier Priority.medium) with ⟨m2, t2, r2⟩
  have hRT2 : runTier mf 1000 jd m1 .medium = (m2, t2, r2) := by
    rw [runTier]
    exact h2
  have hs2 := runTierGo_spec mf 1000 jd .medium (m1.tier .medium) m1 s11
    (s11.tierNodup .medium) (fun i hi => hi) hreadyMed
  rw [h2] at hs2
  dsimp only at hs2
  obtain ⟨s21, s22, s23, s24, s25, s26, s27, s28, s29⟩ := hs2
  have hAM : afterMedium mf jd m = m2 := by
    rw [afterMedium, hAH, hRT2]
  have htr2 : ∀ e2 ∈ t2, ∃ j, getStored m e2 = some j ∧ j.priority = .medium := by
    intro e2 he2
    have h3 := s26 e2 he2
    rw [hT2] at h3
    exact hprioOf .medium e2 h3
  have hbarrierMed : (runTier mf 1000 jd (afterHigh mf jd m) .medium).2.2 = .ok () →
      ∀ i ∈ (afterHigh mf jd m).tier .medium,
      i ∉ (runTier mf 1000 jd (afterHigh mf jd m) .medium).1.jobsById ∧
      (∀ q, i ∉ (runTier mf 1000 jd (afterHigh mf jd m) .medium).1.tier q) ∧
      (∀ j2, getStored (runTier mf 1000 jd (afterHigh mf jd m) .medium).1 i =
          some j2 → isTerminalState j2.state = true) := by
    rw [hAH, hRT2]
    intro hok i hi
    exact s27 hok i hi
  have hT3b : m2.tier Priority.low = m.tier Priority.low := by
    rw [s24 .low (fun hh => Priority.noConfusion hh), hT3a]
  have hreadyLow : ∀ i ∈ m2.tier Priority.low, ∀ j, getStored m2 i = some j →
      j.state = .Created ∧ j.aborted = false := by
    intro i hi j hj
    rw [hT3b] at hi
    have hnotHigh : i ∉ m.tier Priority.high := by
      intro hmem
      obtain ⟨j0, hj0, hp0⟩ := hprioOf .low i hi
      have hp1 := hI.tierPrio .high i hmem j0 hj0
      rw [hp0] at hp1
      exact Priority.noConfusion hp1
    have hnotMed : i ∉ m1.tier Priority.medium := by
      rw [hT2]
      intro hmem
      obtain ⟨j0, hj0, hp0⟩ := hprioOf .low i hi
      have hp1 := hI.tierPrio .medium i hmem j0 hj0
      rw [hp0] at hp1
      exact Priority.noConfusion hp1
    rw [s23 i hnotMed, s13 i hnotHigh] at hj
    exact hready m hI hAC .low i hi j hj
  rcases h3 : runTierGo mf 1000 jd m2 (m2.tier Priority.low) with ⟨m3, t3, r3⟩
  have hRT3 : runTier mf 1000 jd m2 .low = (m3, t3, r3) := by
    rw [runTier]
    exact h3
  have hs3 := runTierGo_spec mf 1000 jd .low (m2.tier .low) m2 s21
    (s21.tierNodup .low) (fun i hi => hi) hreadyLow
  rw [h3] at hs3
  dsimp only at hs3
  obtain ⟨s31, s32, s33, s34, s35, s36, s37, s38, s39⟩ := hs3
  have htr3 : ∀ e2 ∈ t3, ∃ j, getStored m e2 = some j ∧ j.priority = .low := by
    intro e2 he2
    have h4 := s36 e2 he2
    rw [hT3b] at h4
    exact hprioOf .low e2 h4
  have hbarrierLow : (runTier mf 1000 jd (afterMedium mf jd m) .low).2.2 = .ok () →
      ∀ i ∈ (afterMedium mf jd m).tier .low,
      i ∉ (runTier mf 1000 jd (afterMedium mf jd m) .low).1.jobsById ∧
      (∀ q, i ∉ (runTier mf 1000 jd (afterMedium mf jd m) .low).1.tier q) ∧
      (∀ j2, getStored (runTier mf 1000 jd (afterMedium mf jd m) .low).1 i =
          some j2 → isTerminalState j2.state = true) := by
    rw [hAM, hRT3]
    intro hok i hi
    exact s37 hok i hi
  have htiers : (afterHigh mf jd m).tier .medium = m.tier .medium ∧
      (afterMedium mf jd m).tier .low = m.tier .low := by
    rw [hAH, hAM]
    exact ⟨hT2, hT3b⟩
  have hconc : (runJobs 2 zeroJitter mgrHiLo).2.1 = [0, 1] ∧
      (getStored mgrHiLo 0).map Job.priority = some .high ∧
      (getStored mgrHiLo 1).map Job.priority = some .low := ⟨rfl, rfl, rfl⟩
  cases r1 with
  | error e =>
    have hrj : runJobs mf jd m = (m1, t1, .error e) := by
      rw [runJobs, runTier, h1]
    refine ⟨⟨t1, [], [], ?_, ?_, htr1, ?_, ?_, fun _ => ⟨rfl, rfl⟩, ?_,
        fun _ => rfl⟩, hbarrier, htiers, hbarrierMed, hbarrierLow, hconc⟩
    · rw [hrj]
      simp
    · rw [hRT1]
    · intro e2 he2
      exact absurd he2 (List.not_mem_nil e2)
    · intro e2 he2
      exact absurd he2 (List.not_mem_nil e2)
    · intro hok
      rw [hRT1] at hok
      exact Except.noConfusion hok
  | ok u1 =>
    cases u1
    cases r2 with
    | error e =>
      have hrj : runJobs mf jd m = (m2, t1 ++ t2, .error e) := by
        rw [runJobs, runTier, h1]
        dsimp only
        rw [runTier, h2]
      refine ⟨⟨t1, t2, [], ?_, ?_, htr1, htr2, ?_, ?_, ?_, fun _ => rfl⟩,
        hbarrier, htiers, hbarrierMed, hbarrierLow, hconc⟩
      · rw [hrj]
        simp
      · rw [hRT1]
      · intro e2 he2
        exact absurd he2 (List.not_mem_nil e2)
      · intro hne
        exact absurd (by rw [hRT1]) hne
      · intro _
        refine ⟨by rw [hAH, hRT2], ?_⟩
        intro hok2
        rw [hAH, hRT2] at hok2
        exact Except.noConfusion hok2
    | ok u2 =>
      cases u2
      have hrj : runJobs mf jd m = (m3, t1 ++ t2 ++ t3, r3) := by
        rw [runJobs, runTier, h1]
        dsimp only
        rw [runTier, h2]
        dsimp only
        rw [runTier, h3]
      refine ⟨⟨t1, t2, t3, ?_, ?_, htr1, htr2, htr3, ?_, ?_, ?_⟩,
        hbarrier, htiers, hbarrierMed, hbarrierLow, hconc⟩
      · rw [hrj]
      · rw [hRT1]
      · intro hne
        exact absurd (by rw [hRT1]) hne
      · intro _
        exact ⟨by rw [hAH, hRT2], fun _ => by rw [hAM, hRT3]⟩
      · intro hne
        exact absurd (by rw [hAH, hRT2]) hne

theorem claim_C4_witness :
    (runJobs 2 zeroJitter mgrHiLo).2.1 = [0, 1] ∧
    (getStored mgrHiLo 0).map Job.priority = some .high ∧
    (getStored mgrHiLo 1).map Job.priority = some .low :=
  (claim_C4 emptyManager Inv_emptyManager allCreated_emptyManager
    2 zeroJitter).2.2.2.2.2

end StateMachineRepo
